import Mathlib

/-!
Verification of the beamr-economy cache/merge engine and graph builder.

The TypeScript sources are shallowly embedded as executable Lean definitions:

* JS strings are `String`; `toLowerCase()` is modelled by mapping
  `Char.toLower` over the character data (the addresses and ids handled by the
  code are ASCII, where JS and Lean lowercasing agree).
* JS `BigInt(string)` is modelled by a decimal parser with optional sign that
  yields `none` on malformed input and `some 0` on the empty string, matching
  the JS coercion on the decimal strings this program handles; the `try/catch`
  wrapper `safeBigInt` turns a failure into `0`.  JS BigInt division truncates
  toward zero, hence `Int.tdiv`.
* `Array.prototype.sort` with a `localeCompare` comparator is a stable sort by
  a total preorder on strings; it is modelled by `List.insertionSort` (stable)
  over code-unit order `strLe`, which agrees with default-locale
  `localeCompare` on the ASCII identifiers involved.
* JS `Map`/`Set` are modelled by association lists with last-write-wins lookup
  or by insert-if-absent lists (only membership and size are consumed).
* `localStorage` reads are modelled by passing the parsed stored value (or
  `none` for an absent/corrupt entry) as an argument; the identity-resolution
  side channel of the graph builder is likewise passed in as a function
  argument, since the build only copies its answers into node labels.
* Rendering-only attributes that are floating point or random (node
  positions, stroke widths, label formatting) are outside the embedding; the
  curvature hint `±1.0` is modelled as the integer `±1`.
-/

namespace BeamrSpec

/-! ### JS string primitives -/

/-- Model of `String.prototype.toLowerCase` (ASCII lowering, as used on
hex addresses and ids). -/
def jsToLower (s : String) : String := ⟨s.data.map Char.toLower⟩

/-- Code-unit comparison of character lists: `charListLe a b` iff `a` is
lexicographically no greater than `b`. -/
def charListLe : List Char → List Char → Bool
  | [], _ => true
  | _ :: _, [] => false
  | a :: as, b :: bs =>
    if a.toNat < b.toNat then true
    else if b.toNat < a.toNat then false
    else charListLe as bs

/-- Model of the `localeCompare`-based ordering used by the sort comparators:
code-unit lexicographic order (which default-locale `localeCompare` realises
on the ASCII identifiers this program sorts). -/
def strLe (a b : String) : Bool := charListLe a.data b.data

/-! ### JS BigInt model -/

/-- Accumulate a decimal digit list into a natural number. -/
def digitsToNat (l : List Char) : Nat :=
  l.foldl (fun acc c => acc * 10 + (c.toNat - 48)) 0

/-- Parse a nonempty all-digit character list. -/
def parseDigits? (l : List Char) : Option Nat :=
  if l.isEmpty then none
  else if l.all (fun c => c.isDigit) then some (digitsToNat l)
  else none

/-- Model of `BigInt(s)` for the decimal strings this program handles:
optional sign followed by digits; the empty string coerces to `0`; anything
else throws, i.e. yields `none`. -/
def parseBigInt? (s : String) : Option Int :=
  match s.data with
  | [] => some 0
  | c :: rest =>
    if c = '-' then (parseDigits? rest).map (fun n => -(n : Int))
    else if c = '+' then (parseDigits? rest).map (fun n => (n : Int))
    else (parseDigits? (c :: rest)).map (fun n => (n : Int))

/-- `BigInt(s)` under the surrounding `try/catch` that defaults to `0n`. -/
def parseBigInt (s : String) : Int := (parseBigInt? s).getD 0

/-- Embeds `safeBigInt` (src/src/lib/farcaster.ts): `BigInt(value ?? "0")`
with a `catch` returning `0n`. -/
def safeBigInt (v : Option String) : Int := parseBigInt (v.getD "0")

/-- JS BigInt division truncates toward zero. -/
def bigIntDiv (a b : Int) : Int := Int.tdiv a b

/-! ### Data model (src/unnamed/part_002, `superfluid` types) -/

structure AccountRef where
  id : String
deriving DecidableEq

structure PoolMember where
  id : String
  account : AccountRef
  units : String
  isConnected : Option Bool
deriving DecidableEq

structure PoolDistributor where
  id : String
  flowRate : String
  account : AccountRef
deriving DecidableEq

structure Pool where
  id : String
  admin : Option String
  totalUnits : Option String
  poolMembers : List PoolMember
  poolDistributors : Option (List PoolDistributor)
  flowRate : Option String
  perUnitFlowRate : Option String
deriving DecidableEq

/-- `PoolDistribution` records are declared but every code path in scope
produces `poolDistributions: []`; only the identifier matters here. -/
structure PoolDistribution where
  id : String
deriving DecidableEq

structure BeamrData where
  pools : List Pool
  poolDistributions : List PoolDistribution
deriving DecidableEq

structure BeamrConfig where
  subgraphUrl : String
  tokenAddress : String
deriving DecidableEq

/-! ### Cache load (src/unnamed/part_004, `loadCachedBeamrData`) -/

/-- The shape persisted by `saveBeamrData`. -/
structure CachedBeamrData where
  pools : List Pool
  cachedAt : Nat
  config : Option BeamrConfig
deriving DecidableEq

/-- Embeds `loadCachedBeamrData`.  The `stored` argument is the parsed
`localStorage` entry: `none` stands for an absent raw value, malformed JSON,
or a payload whose `pools` is not an array — all the early `return null`
paths. -/
def loadCachedBeamrData (stored : Option CachedBeamrData)
    (currentConfig : Option BeamrConfig) : Option BeamrData :=
  match stored with
  | none => none
  | some parsed =>
    match currentConfig, parsed.config with
    | some cur, some cfg =>
      if cfg.subgraphUrl ≠ cur.subgraphUrl ∨
          jsToLower cfg.tokenAddress ≠ jsToLower cur.tokenAddress then
        none
      else
        some { pools := parsed.pools, poolDistributions := [] }
    | _, _ => some { pools := parsed.pools, poolDistributions := [] }

/-! ### Pool equality (src/unnamed/part_004, `poolsEqual`) -/

/-- Embeds `poolMembersEqual`. -/
def poolMembersEqual (a b : PoolMember) : Bool :=
  decide (a.id = b.id) &&
  decide (jsToLower a.account.id = jsToLower b.account.id) &&
  decide (a.units = b.units) &&
  decide (a.isConnected = b.isConnected)

/-- Embeds `poolDistributorsEqual`. -/
def poolDistributorsEqual (a b : PoolDistributor) : Bool :=
  decide (a.id = b.id) &&
  decide (jsToLower a.account.id = jsToLower b.account.id) &&
  decide (a.flowRate = b.flowRate)

/-- The comparator relation `(x, y) => x.id.localeCompare(y.id)` used by the
sorts in `poolsEqual`, keyed through `k`. -/
def keyLe (k : α → String) (x y : α) : Prop := strLe (k x) (k y) = true

instance (k : α → String) : DecidableRel (keyLe k) := fun x y => by
  unfold keyLe
  infer_instance

/-- Embeds `.sort((x, y) => x.id.localeCompare(y.id))`: JS sorts are stable
(ES2019), as is insertion sort. -/
def sortByKey (k : α → String) (l : List α) : List α :=
  List.insertionSort (keyLe k) l

/-- Length check plus element-wise loop, as in `poolsEqual`. -/
def listAllEqual (eq : α → α → Bool) : List α → List α → Bool
  | [], [] => true
  | x :: xs, y :: ys => eq x y && listAllEqual eq xs ys
  | _, _ => false

/-- Embeds `poolsEqual`. -/
def poolsEqual (a b : Pool) : Bool :=
  decide (jsToLower a.id = jsToLower b.id) &&
  decide (a.admin.map jsToLower = b.admin.map jsToLower) &&
  decide (a.totalUnits = b.totalUnits) &&
  decide (a.flowRate = b.flowRate) &&
  decide (a.perUnitFlowRate = b.perUnitFlowRate) &&
  listAllEqual poolMembersEqual
    (sortByKey PoolMember.id a.poolMembers)
    (sortByKey PoolMember.id b.poolMembers) &&
  listAllEqual poolDistributorsEqual
    (sortByKey PoolDistributor.id (a.poolDistributors.getD []))
    (sortByKey PoolDistributor.id (b.poolDistributors.getD []))

/-! ### Merge (src/unnamed/part_004, `mergeBeamrData`) -/

/-- Lookup in the `existingPoolMap`: the map is populated by one `set` per
existing pool keyed by its lowercased id, so the last pool with a given key
wins. -/
def findPoolById (pools : List Pool) (key : String) : Option Pool :=
  (pools.filter (fun p => decide (jsToLower p.id = key))).getLast?

/-- Embeds `findIndex` + in-place assignment: replace the first pool whose
lowercased id equals `key`; if none matches (`index < 0`) nothing changes. -/
def replaceFirstById : List Pool → String → Pool → List Pool
  | [], _, _ => []
  | q :: qs, key, p =>
    if jsToLower q.id = key then p :: qs
    else q :: replaceFirstById qs key p

/-- One iteration of the `for (const incomingPool of incoming.pools)` loop in
`mergeBeamrData`. -/
def mergeStep (existingPools : List Pool) (acc : List Pool)
    (incomingPool : Pool) : List Pool :=
  let poolId := jsToLower incomingPool.id
  match findPoolById existingPools poolId with
  | none => acc ++ [incomingPool]
  | some existingPool =>
    if poolsEqual existingPool incomingPool then acc
    else replaceFirstById acc poolId incomingPool

/-- Embeds `mergeBeamrData`. -/
def mergeBeamrData (existing incoming : BeamrData) : BeamrData :=
  { pools := incoming.pools.foldl (mergeStep existing.pools) existing.pools
    poolDistributions := [] }

/-! ### Utilities (src/unnamed/part_001) -/

/-- Embeds `normalizeAddress`. -/
def normalizeAddress (address : String) : String := jsToLower address

/-- JS `s.slice(0, n)`. -/
def takeStr (s : String) (n : Nat) : String := ⟨s.data.take n⟩

/-- JS `s.slice(-n)` for `n > 0` (the whole string when shorter than `n`). -/
def takeRightStr (s : String) (n : Nat) : String :=
  ⟨s.data.drop (s.data.length - n)⟩

/-- Embeds `shortenAddress` at its default `size = 4` (the only call site in
scope uses the default). -/
def shortenAddress (address : String) : String :=
  if address = "" then ""
  else
    let normalized := normalizeAddress address
    takeStr normalized 6 ++ "..." ++ takeRightStr normalized 4

/-! ### Graph model (src/src/lib/farcaster.ts, `buildGraphElements`)

Rendering-only attributes that have no bearing on the claims and are not
integer-valued are outside the embedding: node positions (random or loaded
from storage), stroke widths (floating point), and the `formatFlowRate`
display labels inside `PoolInfo`.  The curvature float `1.0 / -1.0` is the
integer `1 / -1`; the conditional `strokeDasharray` is the Boolean `dashed`.
-/

structure PoolInfo where
  address : String
  totalUnits : String
  flowRate : Int
  memberCount : Nat
deriving DecidableEq

structure FlowStats where
  totalFlowRate : Int
  userCount : Nat
deriving DecidableEq

structure UserNodeData where
  address : String
  label : String
  farcaster : Option String
  avatarUrl : Option String
  kind : String
  distributedPools : Option (List PoolInfo)
  incomingFlows : Option FlowStats
  outgoingFlows : Option FlowStats
deriving DecidableEq

structure GNode where
  id : String
  type : String
  data : UserNodeData
deriving DecidableEq

/-- One edge of the produced graph.  `flowRate` and `units` are the two
fields of `edge.data` (JS stores `flowRate` as its decimal string).  The
source writes the `units` field as `memberUnits`, an identifier that is not
declared anywhere in the file — a TypeScript error; the in-scope variable
holding the member's parsed unit count is `units`, and the embedding follows
that evident intent. -/
structure GEdge where
  id : String
  source : String
  target : String
  animated : Bool
  curvature : Int
  dashed : Bool
  flowRate : Int
  units : Int
deriving DecidableEq

structure GraphElements where
  nodes : List GNode
  edges : List GEdge
deriving DecidableEq

/-- The identity-resolution result for one address, as returned by
`resolveNeynarProfiles`. -/
structure FarcasterProfile where
  username : Option String
  avatarUrl : Option String

/-- Embeds `makeAccountNodeId`. -/
def makeAccountNodeId (address : String) : String := "account:" ++ address

/-! JS `Map` model: association list, `get` finds the entry, `set` overwrites
in place or appends. -/

def mapGet (m : List (String × β)) (k : String) : Option β :=
  (m.find? (fun p => decide (p.1 = k))).map (fun p => p.2)

def mapSet (m : List (String × β)) (k : String) (v : β) : List (String × β) :=
  match m with
  | [] => [(k, v)]
  | p :: rest => if p.1 = k then (k, v) :: rest else p :: mapSet rest k v

/-- Embeds `computePerUnitFlowRate` (src/src/lib/farcaster.ts). -/
def computePerUnitFlowRate (pool : Pool) : Int :=
  let perUnitFlowRate := safeBigInt pool.perUnitFlowRate
  if perUnitFlowRate > 0 then perUnitFlowRate
  else
    let flowRate := safeBigInt pool.flowRate
    let totalUnits0 := safeBigInt pool.totalUnits
    let totalUnits :=
      if totalUnits0 ≤ 0 then
        pool.poolMembers.foldl (fun sum m => sum + parseBigInt m.units) 0
      else totalUnits0
    if totalUnits > 0 ∧ flowRate > 0 then bigIntDiv flowRate totalUnits
    else perUnitFlowRate

/-- The two maps computed by the first pass of `buildGraphElements`. -/
structure BuildContext where
  perUnitByPool : List (String × Int)
  poolInfoByDistributor : List (String × List PoolInfo)

/-- First pass of `buildGraphElements`: per-pool effective per-unit flow rate
and the pool summaries associated with each distributor address. -/
def buildContext (data : BeamrData) : BuildContext :=
  data.pools.foldl
    (fun ctx pool =>
      let poolAddress := normalizeAddress pool.id
      let perUnitFlowRate := computePerUnitFlowRate pool
      let flowRateValue := safeBigInt pool.flowRate
      let memberCount :=
        (pool.poolMembers.filter
          (fun m =>
            decide (m.isConnected ≠ some false) &&
            decide (parseBigInt m.units > 0))).length
      let info : PoolInfo :=
        { address := poolAddress
          totalUnits := pool.totalUnits.getD "0"
          flowRate := flowRateValue
          memberCount := memberCount }
      let ctx1 :=
        { ctx with perUnitByPool := mapSet ctx.perUnitByPool poolAddress perUnitFlowRate }
      (pool.poolDistributors.getD []).foldl
        (fun ctx d =>
          let distributorAddress := normalizeAddress d.account.id
          let existing := (mapGet ctx.poolInfoByDistributor distributorAddress).getD []
          { ctx with poolInfoByDistributor :=
              (mapSet ctx.poolInfoByDistributor distributorAddress
                (existing ++ [info])) })
        ctx1)
    { perUnitByPool := [], poolInfoByDistributor := [] }

/-- Accumulated per-address flow statistics: running total plus the JS `Set`
of counterparties (insertion-ordered list, added only when absent; the code
consumes only membership and `size`). -/
structure FlowAcc where
  total : Int
  parties : List String
deriving DecidableEq

/-- JS `Set.prototype.add`. -/
def addParty (l : List String) (x : String) : List String :=
  if x ∈ l then l else l ++ [x]

/-- Mutable state threaded through the edge-creation pass. -/
structure BuildState where
  nodes : List GNode
  edges : List GEdge
  nodeIdSet : List String
  userAddresses : List String
  edgeCountByPair : List (String × Nat)
  incomingFlowsByUser : List (String × FlowAcc)
  outgoingFlowsByUser : List (String × FlowAcc)

/-- Embeds `ensureUserNode` (src/src/lib/farcaster.ts). -/
def ensureUserNode (ctx : BuildContext) (s : BuildState) (address : String) :
    BuildState :=
  let normalized := normalizeAddress address
  let nodeId := makeAccountNodeId normalized
  if nodeId ∈ s.nodeIdSet then s
  else
    { s with
      nodes := s.nodes ++
        [{ id := nodeId
           type := "user"
           data :=
             { address := normalized
               label := shortenAddress normalized
               farcaster := none
               avatarUrl := none
               kind := "user"
               distributedPools := mapGet ctx.poolInfoByDistributor normalized
               incomingFlows := none
               outgoingFlows := none } }]
      nodeIdSet := s.nodeIdSet ++ [nodeId]
      userAddresses := addParty s.userAddresses normalized }

/-- The edge push plus the two flow-stat updates that follow it. -/
def recordEdge (s : BuildState) (e : GEdge)
    (memberAddress distributorAddress : String) (memberFlowRate : Int) :
    BuildState :=
  let s1 := { s with edges := s.edges ++ [e] }
  let memberIncoming :=
    (mapGet s1.incomingFlowsByUser memberAddress).getD ⟨0, []⟩
  let s2 :=
    { s1 with incomingFlowsByUser :=
        (mapSet s1.incomingFlowsByUser memberAddress
          ⟨memberIncoming.total + memberFlowRate,
            addParty memberIncoming.parties distributorAddress⟩) }
  let distributorOutgoing :=
    (mapGet s2.outgoingFlowsByUser distributorAddress).getD ⟨0, []⟩
  { s2 with outgoingFlowsByUser :=
      (mapSet s2.outgoingFlowsByUser distributorAddress
        ⟨distributorOutgoing.total + memberFlowRate,
          addParty distributorOutgoing.parties memberAddress⟩) }

/-- Body of the `for (const distributor of poolDistributors)` loop. -/
def processDistributor (poolAddress memberAddress : String) (units : Int)
    (memberFlowRate : Int) (canComputeFlows : Bool) (s : BuildState)
    (distributor : PoolDistributor) : BuildState :=
  let distributorAddress := normalizeAddress distributor.account.id
  let source := makeAccountNodeId distributorAddress
  let target := makeAccountNodeId memberAddress
  if source = target then s
  else
    let pairKey := source ++ "-" ++ target
    let edgeIndex := (mapGet s.edgeCountByPair pairKey).getD 0
    let s1 :=
      { s with edgeCountByPair := mapSet s.edgeCountByPair pairKey (edgeIndex + 1) }
    let curvature : Int := if edgeIndex % 2 = 0 then 1 else -1
    let e : GEdge :=
      { id := "distribution:" ++ poolAddress ++ ":" ++ distributorAddress ++
          ":" ++ memberAddress
        source := source
        target := target
        animated := true
        curvature := curvature
        dashed := !canComputeFlows
        flowRate := memberFlowRate
        units := units }
    recordEdge s1 e memberAddress distributorAddress memberFlowRate

/-- Body of the `for (const member of pool.poolMembers ?? [])` loop. -/
def processMember (ctx : BuildContext) (poolAddress : String)
    (poolDistributors : List PoolDistributor) (perUnitFlowRate : Int)
    (s : BuildState) (member : PoolMember) : BuildState :=
  if member.isConnected = some false then s
  else
    let units := parseBigInt member.units
    if units ≤ 0 then s
    else
      let canComputeFlows := decide (perUnitFlowRate > 0)
      let memberFlowRate := if canComputeFlows then perUnitFlowRate * units else 0
      let memberAddress := normalizeAddress member.account.id
      let s1 := ensureUserNode ctx s memberAddress
      poolDistributors.foldl
        (processDistributor poolAddress memberAddress units memberFlowRate
          canComputeFlows)
        s1

/-- Body of the second `for (const pool of data.pools)` loop: ensure
distributor nodes, then process every member. -/
def processPool (ctx : BuildContext) (s : BuildState) (pool : Pool) :
    BuildState :=
  let poolAddress := normalizeAddress pool.id
  let poolDistributors := pool.poolDistributors.getD []
  let s1 := poolDistributors.foldl
    (fun s d => ensureUserNode ctx s (normalizeAddress d.account.id)) s
  let perUnitFlowRate := (mapGet ctx.perUnitByPool poolAddress).getD 0
  pool.poolMembers.foldl
    (processMember ctx poolAddress poolDistributors perUnitFlowRate) s1

/-- The final per-node pass: attach the resolved profile and the aggregated
flow statistics (`userCount` is the JS `Set.size`, the length of the
insert-if-absent `parties` list). -/
def attachProfileAndStats (incoming outgoing : List (String × FlowAcc))
    (profiles : String → Option FarcasterProfile) (n : GNode) : GNode :=
  if n.type ≠ "user" then n
  else
    let profile := profiles n.data.address
    let farcaster := profile.bind (fun p => p.username)
    let incomingStats := mapGet incoming n.data.address
    let outgoingStats := mapGet outgoing n.data.address
    { n with data :=
        { n.data with
          farcaster := farcaster
          avatarUrl := profile.bind (fun p => p.avatarUrl)
          label :=
            match farcaster with
            | some f => "@" ++ f
            | none => n.data.label
          incomingFlows := incomingStats.map (fun a => ⟨a.total, a.parties.length⟩)
          outgoingFlows := outgoingStats.map (fun a => ⟨a.total, a.parties.length⟩) } }

/-- The state all mutable collections are in before the first pool is
processed. -/
def initialBuildState : BuildState := BuildState.mk [] [] [] [] [] [] []

/-- The state after the edge-creation pass over every pool. -/
def builtState (data : BeamrData) : BuildState :=
  data.pools.foldl (processPool (buildContext data)) initialBuildState

/-- Embeds `buildGraphElements`.  The `profiles` argument is the outcome of
`resolveFarcasterWithTimeout` (empty on timeout or failure); `layoutNodes`
only assigns rendering positions and is outside the embedding. -/
def buildGraphElements (data : BeamrData)
    (profiles : String → Option FarcasterProfile) : GraphElements :=
  { nodes :=
      (builtState data).nodes.map
        (attachProfileAndStats (builtState data).incomingFlowsByUser
          (builtState data).outgoingFlowsByUser profiles)
    edges := (builtState data).edges }

/-! ### Basic lemmas about the string and map primitives -/

theorem char_toNat_injective {c d : Char} (h : c.toNat = d.toNat) : c = d :=
  Char.ext (UInt32.ext h)

theorem char_toLower_eq (c : Char) :
    Char.toLower c =
      if c.toNat ≥ 65 ∧ c.toNat ≤ 90 then Char.ofNat (c.toNat + 32) else c := rfl

theorem char_toLower_ofNat_fix (n : Nat) (h1 : 65 ≤ n) (h2 : n ≤ 90) :
    Char.toLower (Char.ofNat (n + 32)) = Char.ofNat (n + 32) := by
  interval_cases n <;> decide

theorem char_toLower_idem (c : Char) :
    Char.toLower (Char.toLower c) = Char.toLower c := by
  by_cases h : c.toNat ≥ 65 ∧ c.toNat ≤ 90
  · rw [char_toLower_eq c, if_pos h]
    exact char_toLower_ofNat_fix c.toNat h.1 h.2
  · rw [char_toLower_eq c, if_neg h, char_toLower_eq c, if_neg h]

theorem string_data_inj : ∀ {a b : String}, a.data = b.data → a = b := by
  intro a b h
  cases a
  cases b
  exact congrArg String.mk h

theorem jsToLower_idem (s : String) : jsToLower (jsToLower s) = jsToLower s := by
  unfold jsToLower
  apply congrArg String.mk
  show (s.data.map Char.toLower).map Char.toLower = s.data.map Char.toLower
  rw [List.map_map]
  exact List.map_congr_left (fun c _ => char_toLower_idem c)

theorem normalizeAddress_idem (a : String) :
    normalizeAddress (normalizeAddress a) = normalizeAddress a :=
  jsToLower_idem a

theorem jsToLower_ne_of_ne {a b : String} (h : jsToLower a ≠ jsToLower b) :
    a ≠ b := fun hab => h (congrArg jsToLower hab)

theorem makeAccountNodeId_inj : Function.Injective makeAccountNodeId := by
  intro a b h
  unfold makeAccountNodeId at h
  have hdata := congrArg String.data h
  rw [String.data_append, String.data_append] at hdata
  exact string_data_inj (List.append_cancel_left hdata)

theorem mapGet_nil (k : String) : mapGet ([] : List (String × β)) k = none := rfl

theorem mapGet_set_self (m : List (String × β)) (k : String) (v : β) :
    mapGet (mapSet m k v) k = some v := by
  induction m with
  | nil => simp [mapGet, mapSet, List.find?]
  | cons p rest ih =>
    by_cases h : p.1 = k
    · simp [mapSet, h, mapGet, List.find?]
    · simp only [mapSet, if_neg h]
      simpa [mapGet, List.find?_cons, h] using ih

theorem mapGet_set_other (m : List (String × β)) (k : String) (v : β)
    (k' : String) (h : k' ≠ k) :
    mapGet (mapSet m k v) k' = mapGet m k' := by
  induction m with
  | nil => simp [mapGet, mapSet, List.find?, Ne.symm h]
  | cons p rest ih =>
    by_cases hp : p.1 = k
    · subst hp
      simp [mapSet, mapGet, List.find?_cons, Ne.symm h]
    · simp only [mapSet, if_neg hp]
      by_cases hp' : p.1 = k'
      · simp [mapGet, List.find?_cons, hp']
      · simpa [mapGet, List.find?_cons, hp'] using ih

theorem mem_addParty (l : List String) (x y : String) :
    y ∈ addParty l x ↔ y ∈ l ∨ y = x := by
  unfold addParty
  by_cases h : x ∈ l
  · rw [if_pos h]
    constructor
    · exact Or.inl
    · rintro (hy | rfl)
      · exact hy
      · exact h
  · rw [if_neg h]
    simp

theorem addParty_nodup {l : List String} (hl : l.Nodup) (x : String) :
    (addParty l x).Nodup := by
  unfold addParty
  by_cases h : x ∈ l
  · rwa [if_pos h]
  · rw [if_neg h]
    simpa [List.nodup_append] using ⟨hl, fun hx => h hx⟩

/-! ### Cache loading (C9) -/

/-- C9: `loadCachedBeamrData(config)` returns null whenever the persisted
snapshot is absent or malformed, or its embedded config does not
case-insensitively match the requested `(subgraphUrl, tokenAddress)` pair; in
particular a snapshot cached under token address X is never returned when
queried with a case-insensitively different token address Y, while a
case-only difference in the address does not invalidate the cache. -/
theorem loadCachedBeamrData_config_check
    (stored : CachedBeamrData) (cfg cur : BeamrConfig)
    (cc : Option BeamrConfig) (hcfg : stored.config = some cfg) :
    loadCachedBeamrData none cc = none ∧
    ((jsToLower cfg.subgraphUrl ≠ jsToLower cur.subgraphUrl ∨
        jsToLower cfg.tokenAddress ≠ jsToLower cur.tokenAddress) →
      loadCachedBeamrData (some stored) (some cur) = none) ∧
    (cfg.subgraphUrl = cur.subgraphUrl →
      jsToLower cfg.tokenAddress = jsToLower cur.tokenAddress →
      loadCachedBeamrData (some stored) (some cur) =
        some { pools := stored.pools, poolDistributions := [] }) := by
  refine ⟨rfl, ?_, ?_⟩
  · intro h
    simp only [loadCachedBeamrData, hcfg]
    rcases h with h | h
    · rw [if_pos (Or.inl (jsToLower_ne_of_ne h))]
    · rw [if_pos (Or.inr h)]
  · intro hurl htok
    simp only [loadCachedBeamrData, hcfg]
    rw [if_neg (by simp [hurl, htok])]

/-- Witness for C9: a snapshot cached under token `0xAB` is returned for the
request `0xab` with the same subgraph URL. -/
theorem loadCachedBeamrData_config_check_witness :
    loadCachedBeamrData
        (some { pools := [], cachedAt := 0,
                config := some { subgraphUrl := "https://sg", tokenAddress := "0xAB" } })
        (some { subgraphUrl := "https://sg", tokenAddress := "0xab" }) =
      some { pools := [], poolDistributions := [] } :=
  (loadCachedBeamrData_config_check
    { pools := [], cachedAt := 0,
      config := some { subgraphUrl := "https://sg", tokenAddress := "0xAB" } }
    { subgraphUrl := "https://sg", tokenAddress := "0xAB" }
    { subgraphUrl := "https://sg", tokenAddress := "0xab" }
    none rfl).2.2 rfl (by decide)

/-! ### Member exclusion (C6) -/

/-- C6: a member whose `isConnected` is `false`, or whose units parse to a
value `≤ 0` (including malformed unit strings, which parse to `0`), leaves
the build state untouched: the whole per-member loop body is a no-op, so no
edge is created for that member, regardless of the pool's flow rate. -/
theorem member_excluded_no_edges (ctx : BuildContext) (poolAddress : String)
    (poolDistributors : List PoolDistributor) (perUnitFlowRate : Int)
    (s : BuildState) (member : PoolMember)
    (h : member.isConnected = some false ∨ parseBigInt member.units ≤ 0) :
    processMember ctx poolAddress poolDistributors perUnitFlowRate s member = s := by
  unfold processMember
  rcases h with h | h
  · rw [if_pos h]
  · split
    · rfl
    · simp [h]

/-- Witness for C6: a disconnected member with positive units in a pool with
positive per-unit rate produces no state change. -/
theorem member_excluded_no_edges_witness :
    processMember (BuildContext.mk [] []) "0xpool" [] 7 initialBuildState
      (PoolMember.mk "m" (AccountRef.mk "0xa") "5" (some false)) =
      initialBuildState :=
  member_excluded_no_edges _ _ _ _ _ _ (Or.inl rfl)

/-! ### Self-edge suppression (C7) -/

theorem processDistributor_self_skip (poolAddress memberAddress : String)
    (units memberFlowRate : Int) (canComputeFlows : Bool) (s : BuildState)
    (d : PoolDistributor) (h : normalizeAddress d.account.id = memberAddress) :
    processDistributor poolAddress memberAddress units memberFlowRate
      canComputeFlows s d = s := by
  unfold processDistributor
  rw [h, if_pos rfl]

theorem edges_ensureUserNode (ctx : BuildContext) (s : BuildState)
    (address : String) : (ensureUserNode ctx s address).edges = s.edges := by
  simp only [ensureUserNode]
  split
  · rfl
  · rfl

/-- C7: `buildGraphElements` never creates a self-edge: the per-distributor
loop body skips any distributor whose normalized address coincides with the
member's, and a single-pool dataset whose sole distributor address equals its
sole member address case-insensitively yields zero edges. -/
theorem self_edge_suppression :
    (∀ (poolAddress memberAddress : String) (units memberFlowRate : Int)
        (canComputeFlows : Bool) (s : BuildState) (d : PoolDistributor),
      normalizeAddress d.account.id = memberAddress →
      processDistributor poolAddress memberAddress units memberFlowRate
        canComputeFlows s d = s) ∧
    (∀ (p : Pool) (d : PoolDistributor) (m : PoolMember)
        (pds : List PoolDistribution)
        (profiles : String → Option FarcasterProfile),
      p.poolDistributors = some [d] → p.poolMembers = [m] →
      jsToLower d.account.id = jsToLower m.account.id →
      (buildGraphElements (BeamrData.mk [p] pds) profiles).edges = []) := by
  constructor
  · exact processDistributor_self_skip
  · intro p d m pds profiles hd hm hdm
    show (builtState (BeamrData.mk [p] pds)).edges = []
    have hb : builtState (BeamrData.mk [p] pds) =
        processPool (buildContext (BeamrData.mk [p] pds)) initialBuildState p := rfl
    rw [hb]
    unfold processPool
    rw [hd, hm]
    simp only [Option.getD_some, List.foldl_cons, List.foldl_nil]
    set ctx := buildContext (BeamrData.mk [p] pds)
    set s1 := ensureUserNode ctx initialBuildState (normalizeAddress d.account.id)
      with hs1
    have hs1e : s1.edges = [] := edges_ensureUserNode ..
    simp only [processMember]
    split
    · exact hs1e
    · split
      · exact hs1e
      · simp only [List.foldl_cons, List.foldl_nil]
        rw [processDistributor_self_skip _ _ _ _ _ _ _
          (show normalizeAddress d.account.id = normalizeAddress m.account.id from hdm)]
        rw [edges_ensureUserNode]
        exact hs1e

/-- Witness for C7: a concrete single-pool dataset whose sole distributor is
its sole member (up to case) builds with zero edges. -/
theorem self_edge_suppression_witness :
    (buildGraphElements
        (BeamrData.mk
          [Pool.mk "0xP" none (some "1")
            [PoolMember.mk "m" (AccountRef.mk "0xAB") "5" none]
            (some [PoolDistributor.mk "d" "10" (AccountRef.mk "0xab")])
            (some "10") none] [])
        (fun _ => none)).edges = [] :=
  self_edge_suppression.2 _ _ _ _ _ rfl rfl (by decide)

/-! ### Per-unit flow rate derivation (C4) -/

/-- The per-unit flow rate exactly as the claim words it: return the supplied
`perUnitFlowRate` when it parses to a positive integer; otherwise return
`flowRate / totalUnits`, falling back to `flowRate / sum(member.units)` when
`totalUnits` is absent or zero, and return `0` rather than throwing when the
divisor is zero or a big-integer string is malformed (malformed parses are
`0`). -/
def perUnitFlowRateClaimed (pool : Pool) : Int :=
  let supplied := safeBigInt pool.perUnitFlowRate
  if supplied > 0 then supplied
  else
    let flowRate := safeBigInt pool.flowRate
    let totalUnits := safeBigInt pool.totalUnits
    let divisor :=
      if totalUnits = 0 then
        pool.poolMembers.foldl (fun sum m => sum + parseBigInt m.units) 0
      else totalUnits
    if divisor = 0 then 0 else bigIntDiv flowRate divisor

/-- A pool whose supplied `perUnitFlowRate` parses to a negative number and
which offers nothing to divide. -/
def c4badPool : Pool := Pool.mk "0xbad" none none [] none none (some "-7")

/-- Counterexample to C4 as stated: on `c4badPool` the claim prescribes `0`
(the supplied rate is not positive and the divisor is zero) but the code
returns the negative parsed value `-7`, because the no-division branch
returns the raw parsed `perUnitFlowRate` rather than `0`. -/
theorem computePerUnitFlowRate_claim_counterexample :
    computePerUnitFlowRate c4badPool = -7 ∧
    perUnitFlowRateClaimed c4badPool = 0 ∧
    computePerUnitFlowRate c4badPool ≠ perUnitFlowRateClaimed c4badPool := by
  decide

theorem foldl_units_nonneg (l : List PoolMember)
    (h : ∀ m ∈ l, 0 ≤ parseBigInt m.units) :
    ∀ a : Int, 0 ≤ a → 0 ≤ l.foldl (fun sum m => sum + parseBigInt m.units) a := by
  induction l with
  | nil => intro a ha; simpa using ha
  | cons m rest ih =>
    intro a ha
    exact ih (fun x hx => h x (List.mem_cons_of_mem _ hx)) _
      (add_nonneg ha (h m (List.mem_cons_self _ _)))

/-- The example pool of the claim: `flowRate=1000`, `totalUnits=0`, members
with units 30 and 70. -/
def c4examplePool : Pool :=
  Pool.mk "0xpool" none (some "0")
    [PoolMember.mk "m1" (AccountRef.mk "0xaa") "30" (some true),
     PoolMember.mk "m2" (AccountRef.mk "0xbb") "70" (some true)]
    (some [PoolDistributor.mk "d1" "1000" (AccountRef.mk "0xdd")])
    (some "1000") none

/-- C4 (amended): for pools whose relevant big-integer strings all parse to
nonnegative values, `computePerUnitFlowRate` agrees with the claimed
derivation; on the claim's concrete example the derived per-unit rate is
`1000/100 = 10`, and the per-member products `perUnitFlowRate * units`
(the `memberFlowRate` of src/src/lib/farcaster.ts:649) are 300 and 700.
The claim's further assertion that these appear as edge flow rates is not a
behaviour of the program: constructing the first edge throws on the
undeclared identifier `memberUnits` (farcaster.ts:693), so no edge-bearing
graph is ever returned. -/
theorem computePerUnitFlowRate_spec_of_nonneg (pool : Pool)
    (h1 : 0 ≤ safeBigInt pool.perUnitFlowRate)
    (h2 : 0 ≤ safeBigInt pool.totalUnits)
    (h3 : 0 ≤ safeBigInt pool.flowRate)
    (h4 : ∀ m ∈ pool.poolMembers, 0 ≤ parseBigInt m.units) :
    computePerUnitFlowRate pool = perUnitFlowRateClaimed pool ∧
    computePerUnitFlowRate c4examplePool = 10 ∧
    computePerUnitFlowRate c4examplePool * parseBigInt "30" = 300 ∧
    computePerUnitFlowRate c4examplePool * parseBigInt "70" = 700 := by
  refine ⟨?_, by decide, by decide, by decide⟩
  have hsm : 0 ≤ pool.poolMembers.foldl (fun sum m => sum + parseBigInt m.units) 0 :=
    foldl_units_nonneg _ h4 0 le_rfl
  simp only [computePerUnitFlowRate, perUnitFlowRateClaimed]
  split_ifs with ha hb hc hd he hf hg hh <;>
    first
      | rfl
      | omega
      | (have hfr : safeBigInt pool.flowRate = 0 := by omega
         rw [hfr]
         simp only [bigIntDiv, Int.zero_tdiv]
         omega)

/-- Witness for C4 at the example pool (all parses nonnegative). -/
theorem computePerUnitFlowRate_spec_of_nonneg_witness :
    computePerUnitFlowRate c4examplePool = perUnitFlowRateClaimed c4examplePool :=
  (computePerUnitFlowRate_spec_of_nonneg c4examplePool (by decide) (by decide)
    (by decide) (by decide)).1

/-! ### Merge retention (C1) -/

theorem lowerIds_replaceFirstById (ps : List Pool) (k : String) (q : Pool)
    (hq : jsToLower q.id = k) :
    (replaceFirstById ps k q).map (fun p => jsToLower p.id) =
      ps.map (fun p => jsToLower p.id) := by
  induction ps with
  | nil => rfl
  | cons p0 t ih =>
    by_cases hh : jsToLower p0.id = k
    · simp [replaceFirstById, hh, hq]
    · simp only [replaceFirstById, if_neg hh, List.map_cons]
      rw [ih]

theorem mem_replaceFirstById_of_ne {ps : List Pool} {k : String} {q p : Pool}
    (hp : p ∈ ps) (hne : jsToLower p.id ≠ k) : p ∈ replaceFirstById ps k q := by
  induction ps with
  | nil => cases hp
  | cons p0 t ih =>
    rcases List.mem_cons.mp hp with rfl | hp'
    · by_cases hh : jsToLower p.id = k
      · exact absurd hh hne
      · simp only [replaceFirstById, if_neg hh]
        exact List.mem_cons_self _ _
    · by_cases hh : jsToLower p0.id = k
      · simp only [replaceFirstById, if_pos hh]
        exact List.mem_cons_of_mem _ hp'
      · simp only [replaceFirstById, if_neg hh]
        exact List.mem_cons_of_mem _ (ih hp')

theorem lowerId_mem_mergeStep {E acc : List Pool} {ip : Pool} {i : String}
    (hi : i ∈ acc.map (fun p => jsToLower p.id)) :
    i ∈ (mergeStep E acc ip).map (fun p => jsToLower p.id) := by
  cases hfind : findPoolById E (jsToLower ip.id) with
  | none =>
    simp only [mergeStep, hfind, List.map_append]
    exact List.mem_append_left _ hi
  | some e =>
    simp only [mergeStep, hfind]
    split
    · exact hi
    · rw [lowerIds_replaceFirstById _ _ _ rfl]
      exact hi

theorem mem_mergeStep_of_ne {E acc : List Pool} {ip p : Pool}
    (hp : p ∈ acc) (hne : jsToLower ip.id ≠ jsToLower p.id) :
    p ∈ mergeStep E acc ip := by
  cases hfind : findPoolById E (jsToLower ip.id) with
  | none =>
    simp only [mergeStep, hfind]
    exact List.mem_append_left _ hp
  | some e =>
    simp only [mergeStep, hfind]
    split
    · exact hp
    · exact mem_replaceFirstById_of_ne hp (Ne.symm hne)

theorem lowerId_mem_merge_foldl (E : List Pool) (l : List Pool) :
    ∀ (acc : List Pool) (i : String), i ∈ acc.map (fun p => jsToLower p.id) →
      i ∈ (l.foldl (mergeStep E) acc).map (fun p => jsToLower p.id) := by
  induction l with
  | nil => intro acc i hi; exact hi
  | cons q t ih =>
    intro acc i hi
    exact ih _ _ (lowerId_mem_mergeStep hi)

theorem mem_merge_foldl_of_ne (E : List Pool) (l : List Pool) :
    ∀ (acc : List Pool) (p : Pool), p ∈ acc →
      (∀ q ∈ l, jsToLower q.id ≠ jsToLower p.id) →
      p ∈ l.foldl (mergeStep E) acc := by
  induction l with
  | nil => intro acc p hp _; exact hp
  | cons q t ih =>
    intro acc p hp hl
    exact ih _ _ (mem_mergeStep_of_ne hp (hl q (List.mem_cons_self _ _)))
      (fun r hr => hl r (List.mem_cons_of_mem _ hr))

/-- C1: the merge never shrinks the authoritative pool collection — every
lowercased pool id present in `existing` is present in the merge result, and
an existing pool whose id matches no incoming pool is retained unchanged. -/
theorem merge_monotonic_retention (existing incoming : BeamrData) :
    (∀ p ∈ existing.pools, ∃ q ∈ (mergeBeamrData existing incoming).pools,
        jsToLower q.id = jsToLower p.id) ∧
    (∀ p ∈ existing.pools,
      (∀ q ∈ incoming.pools, jsToLower q.id ≠ jsToLower p.id) →
      p ∈ (mergeBeamrData existing incoming).pools) := by
  constructor
  · intro p hp
    have hi : jsToLower p.id ∈ existing.pools.map (fun r => jsToLower r.id) :=
      List.mem_map.mpr ⟨p, hp, rfl⟩
    have hmem := lowerId_mem_merge_foldl existing.pools incoming.pools
      existing.pools (jsToLower p.id) hi
    obtain ⟨q, hq, hq2⟩ := List.mem_map.mp hmem
    exact ⟨q, hq, hq2⟩
  · intro p hp hq
    exact mem_merge_foldl_of_ne existing.pools incoming.pools existing.pools p hp hq

/-- Witness for C1: with no incoming pools the existing pool survives
untouched. -/
theorem merge_monotonic_retention_witness :
    Pool.mk "a" none none [] none (some "1") none ∈
      (mergeBeamrData
        (BeamrData.mk [Pool.mk "a" none none [] none (some "1") none] [])
        (BeamrData.mk [] [])).pools :=
  (merge_monotonic_retention _ _).2 _ (List.mem_singleton_self _)
    (fun q hq => absurd hq (List.not_mem_nil q))

/-! ### Order properties of the comparator and sort (towards C3, C2) -/

theorem charListLe_refl : ∀ l : List Char, charListLe l l = true := by
  intro l
  induction l with
  | nil => rfl
  | cons c t ih => simp [charListLe, ih]

theorem charListLe_total : ∀ a b : List Char,
    charListLe a b = true ∨ charListLe b a = true := by
  intro a
  induction a with
  | nil => intro b; left; rfl
  | cons c t ih =>
    intro b
    cases b with
    | nil => right; rfl
    | cons d u =>
      rcases Nat.lt_trichotomy c.toNat d.toNat with h | h | h
      · left; simp [charListLe, h]
      · have hcd : c = d := char_toNat_injective h
        subst hcd
        rcases ih u with h2 | h2
        · left; simp [charListLe, h2]
        · right; simp [charListLe, h2]
      · right; simp [charListLe, h]

theorem charListLe_antisymm : ∀ a b : List Char,
    charListLe a b = true → charListLe b a = true → a = b := by
  intro a
  induction a with
  | nil =>
    intro b h1 h2
    cases b with
    | nil => rfl
    | cons d u => exact absurd h2 (by simp [charListLe])
  | cons c t ih =>
    intro b h1 h2
    cases b with
    | nil => exact absurd h1 (by simp [charListLe])
    | cons d u =>
      rcases Nat.lt_trichotomy c.toNat d.toNat with h | h | h
      · simp [charListLe, Nat.lt_asymm h, h] at h2
      · have hcd : c = d := char_toNat_injective h
        subst hcd
        have h1' : charListLe t u = true := by simpa [charListLe] using h1
        have h2' : charListLe u t = true := by simpa [charListLe] using h2
        rw [ih u h1' h2']
      · simp [charListLe, Nat.lt_asymm h, h] at h1

theorem charListLe_trans : ∀ a b c : List Char,
    charListLe a b = true → charListLe b c = true → charListLe a c = true := by
  intro a
  induction a with
  | nil => intro b c _ _; rfl
  | cons x t ih =>
    intro b c h1 h2
    cases b with
    | nil => exact absurd h1 (by simp [charListLe])
    | cons y u =>
      cases c with
      | nil => exact absurd h2 (by simp [charListLe])
      | cons z v =>
        rcases Nat.lt_trichotomy x.toNat y.toNat with hxy | hxy | hxy
        · rcases Nat.lt_trichotomy y.toNat z.toNat with hyz | hyz | hyz
          · simp [charListLe, Nat.lt_trans hxy hyz]
          · have h : y = z := char_toNat_injective hyz
            subst h
            simp [charListLe, hxy]
          · simp [charListLe, Nat.lt_asymm hyz, hyz] at h2
        · have h : x = y := char_toNat_injective hxy
          subst h
          have h1' : charListLe t u = true := by simpa [charListLe] using h1
          rcases Nat.lt_trichotomy x.toNat z.toNat with hxz | hxz | hxz
          · simp [charListLe, hxz]
          · have h : x = z := char_toNat_injective hxz
            subst h
            have h2' : charListLe u v = true := by simpa [charListLe] using h2
            simpa [charListLe] using ih u v h1' h2'
          · simp [charListLe, Nat.lt_asymm hxz, hxz] at h2
        · simp [charListLe, Nat.lt_asymm hxy, hxy] at h1

theorem strLe_total (a b : String) : strLe a b = true ∨ strLe b a = true :=
  charListLe_total a.data b.data

theorem strLe_antisymm {a b : String} (h1 : strLe a b = true)
    (h2 : strLe b a = true) : a = b :=
  string_data_inj (charListLe_antisymm _ _ h1 h2)

theorem strLe_trans {a b c : String} (h1 : strLe a b = true)
    (h2 : strLe b c = true) : strLe a c = true :=
  charListLe_trans _ _ _ h1 h2

instance (k : α → String) : IsTotal α (keyLe k) :=
  ⟨fun x y => strLe_total (k x) (k y)⟩

instance (k : α → String) : IsTrans α (keyLe k) :=
  ⟨fun _ _ _ h1 h2 => strLe_trans h1 h2⟩

theorem sortByKey_perm (k : α → String) (l : List α) :
    (sortByKey k l).Perm l :=
  List.perm_insertionSort _ l

theorem sortByKey_sorted (k : α → String) (l : List α) :
    (sortByKey k l).Sorted (keyLe k) :=
  List.sorted_insertionSort _ l

/-- Two sorted lists that are permutations of each other and whose keys are
pairwise distinct coincide. -/
theorem eq_of_perm_sorted_nodup_keys (k : α → String) :
    ∀ (l₁ l₂ : List α), l₁.Perm l₂ → l₁.Sorted (keyLe k) →
      l₂.Sorted (keyLe k) → (l₁.map k).Nodup → l₁ = l₂ := by
  intro l₁
  induction l₁ with
  | nil =>
    intro l₂ hp _ _ _
    exact (hp.symm.eq_nil).symm
  | cons x t ih =>
    intro l₂ hp hs1 hs2 hn
    cases l₂ with
    | nil => exact absurd hp.eq_nil (by simp)
    | cons y u =>
      have hxy : x = y := by
        have hx2 : x ∈ y :: u := hp.mem_iff.mp (List.mem_cons_self _ _)
        have hy1 : y ∈ x :: t := hp.symm.mem_iff.mp (List.mem_cons_self _ _)
        rcases List.mem_cons.mp hx2 with h | hxu
        · exact h
        · rcases List.mem_cons.mp hy1 with h | hyt
          · exact h.symm
          · have hr1 : keyLe k x y := List.rel_of_sorted_cons hs1 y hyt
            have hr2 : keyLe k y x := List.rel_of_sorted_cons hs2 x hxu
            have hk : k x = k y := strLe_antisymm hr1 hr2
            exfalso
            have hmem : k x ∈ t.map k := hk ▸ List.mem_map_of_mem k hyt
            exact (List.nodup_cons.mp (by simpa using hn)).1 hmem
      subst hxy
      have ht : t = u :=
        ih u hp.cons_inv hs1.of_cons hs2.of_cons
          (by simpa using (List.nodup_cons.mp (by simpa using hn)).2)
      rw [ht]

theorem sortByKey_eq_of_perm (k : α → String) {l₁ l₂ : List α}
    (h : l₁.Perm l₂) (hn : (l₂.map k).Nodup) :
    sortByKey k l₁ = sortByKey k l₂ := by
  refine eq_of_perm_sorted_nodup_keys k _ _
    ((sortByKey_perm k l₁).trans (h.trans (sortByKey_perm k l₂).symm))
    (sortByKey_sorted k l₁) (sortByKey_sorted k l₂) ?_
  have hperm : ((sortByKey k l₁).map k).Perm (l₂.map k) :=
    ((sortByKey_perm k l₁).trans h).map k
  exact hperm.nodup_iff.mpr hn

theorem listAllEqual_refl (eq : α → α → Bool) (l : List α)
    (h : ∀ x ∈ l, eq x x = true) : listAllEqual eq l l = true := by
  induction l with
  | nil => rfl
  | cons x t ih =>
    simp only [listAllEqual, Bool.and_eq_true]
    exact ⟨h x (List.mem_cons_self _ _),
      ih (fun y hy => h y (List.mem_cons_of_mem _ hy))⟩

theorem poolMembersEqual_refl (m : PoolMember) : poolMembersEqual m m = true := by
  simp [poolMembersEqual]

theorem poolDistributorsEqual_refl (d : PoolDistributor) :
    poolDistributorsEqual d d = true := by
  simp [poolDistributorsEqual]

theorem poolsEqual_refl (p : Pool) : poolsEqual p p = true := by
  have hm := listAllEqual_refl poolMembersEqual
    (sortByKey PoolMember.id p.poolMembers) (fun x _ => poolMembersEqual_refl x)
  have hd := listAllEqual_refl poolDistributorsEqual
    (sortByKey PoolDistributor.id (p.poolDistributors.getD []))
    (fun x _ => poolDistributorsEqual_refl x)
  simp [poolsEqual, hm, hd]

/-! ### Pool equality ignores order (C3) -/

/-- Two members sharing the id `"x"` but with different units. -/
def c3m1 : PoolMember := PoolMember.mk "x" (AccountRef.mk "0xa") "1" none

def c3m2 : PoolMember := PoolMember.mk "x" (AccountRef.mk "0xa") "2" none

def c3a : Pool := Pool.mk "p" none none [c3m1, c3m2] none none none

def c3b : Pool := Pool.mk "p" none none [c3m2, c3m1] none none none

/-- Counterexample to C3 as stated: `c3a` and `c3b` have equal scalar fields
and member lists that are exact permutations of each other (hence pairwise
equal up to reordering), yet `poolsEqual` returns `false`, because the two
members share the same id and the stable sort by id cannot align them. -/
theorem poolsEqual_claim_counterexample :
    c3b.poolMembers.Perm c3a.poolMembers ∧
    jsToLower c3a.id = jsToLower c3b.id ∧
    c3a.admin = c3b.admin ∧
    c3a.totalUnits = c3b.totalUnits ∧
    c3a.flowRate = c3b.flowRate ∧
    c3a.perUnitFlowRate = c3b.perUnitFlowRate ∧
    c3a.poolDistributors = c3b.poolDistributors ∧
    poolsEqual c3a c3b = false := by
  decide

/-- C3 (amended): provided the member ids and the distributor ids within each
list are pairwise distinct, two pools with equal scalar fields (ids and admin
up to case) whose member and distributor lists are permutations of each other
are `poolsEqual`; and under the same distinctness the insertion order of the
two sub-collections never affects the result of `poolsEqual`. -/
theorem poolsEqual_of_perm_nodup_ids :
    (∀ a b : Pool,
      jsToLower a.id = jsToLower b.id →
      a.admin.map jsToLower = b.admin.map jsToLower →
      a.totalUnits = b.totalUnits →
      a.flowRate = b.flowRate →
      a.perUnitFlowRate = b.perUnitFlowRate →
      a.poolMembers.Perm b.poolMembers →
      (a.poolDistributors.getD []).Perm (b.poolDistributors.getD []) →
      (b.poolMembers.map PoolMember.id).Nodup →
      ((b.poolDistributors.getD []).map PoolDistributor.id).Nodup →
      poolsEqual a b = true) ∧
    (∀ (i : String) (ad tu fr pu : Option String)
        (ms ms' : List PoolMember) (ds ds' : Option (List PoolDistributor))
        (b : Pool),
      ms'.Perm ms → (ds'.getD []).Perm (ds.getD []) →
      (ms.map PoolMember.id).Nodup →
      ((ds.getD []).map PoolDistributor.id).Nodup →
      poolsEqual (Pool.mk i ad tu ms' ds' fr pu) b =
        poolsEqual (Pool.mk i ad tu ms ds fr pu) b) := by
  constructor
  · intro a b hid hadmin htu hfr hpu hm hd hmn hdn
    have hms : sortByKey PoolMember.id a.poolMembers =
        sortByKey PoolMember.id b.poolMembers :=
      sortByKey_eq_of_perm _ hm hmn
    have hds : sortByKey PoolDistributor.id (a.poolDistributors.getD []) =
        sortByKey PoolDistributor.id (b.poolDistributors.getD []) :=
      sortByKey_eq_of_perm _ hd hdn
    have h1 : listAllEqual poolMembersEqual
        (sortByKey PoolMember.id a.poolMembers)
        (sortByKey PoolMember.id b.poolMembers) = true := by
      rw [hms]
      exact listAllEqual_refl _ _ (fun x _ => poolMembersEqual_refl x)
    have h2 : listAllEqual poolDistributorsEqual
        (sortByKey PoolDistributor.id (a.poolDistributors.getD []))
        (sortByKey PoolDistributor.id (b.poolDistributors.getD [])) = true := by
      rw [hds]
      exact listAllEqual_refl _ _ (fun x _ => poolDistributorsEqual_refl x)
    simp [poolsEqual, hid, hadmin, htu, hfr, hpu, h1, h2]
  · intro i ad tu fr pu ms ms' ds ds' b hm hd hmn hdn
    have hms : sortByKey PoolMember.id ms' = sortByKey PoolMember.id ms :=
      sortByKey_eq_of_perm _ hm hmn
    have hds : sortByKey PoolDistributor.id (ds'.getD []) =
        sortByKey PoolDistributor.id (ds.getD []) :=
      sortByKey_eq_of_perm _ hd hdn
    simp only [poolsEqual, hms, hds]

/-- Witness for C3: reordering two distinct-id members leaves the pools
`poolsEqual`. -/
theorem poolsEqual_of_perm_nodup_ids_witness :
    poolsEqual
      (Pool.mk "P" none (some "5")
        [PoolMember.mk "y" (AccountRef.mk "0xB") "2" none,
         PoolMember.mk "x" (AccountRef.mk "0xA") "3" (some true)]
        none (some "9") none)
      (Pool.mk "p" none (some "5")
        [PoolMember.mk "x" (AccountRef.mk "0xA") "3" (some true),
         PoolMember.mk "y" (AccountRef.mk "0xB") "2" none]
        none (some "9") none) = true :=
  poolsEqual_of_perm_nodup_ids.1 _ _ (by decide) (by decide) rfl rfl rfl
    (by decide) (by decide) (by decide) (by decide)

/-! ### Merge idempotence (C2) -/

/-- The sub-sequence of pools whose lowercased id is `k`. -/
def poolsWithKey (ps : List Pool) (k : String) : List Pool :=
  ps.filter (fun p => decide (jsToLower p.id = k))

theorem findPoolById_eq_getLast (ps : List Pool) (k : String) :
    findPoolById ps k = (poolsWithKey ps k).getLast? := rfl

theorem mergeStep_eq (E acc : List Pool) (ip : Pool) :
    mergeStep E acc ip =
      match findPoolById E (jsToLower ip.id) with
      | none => acc ++ [ip]
      | some e =>
        if poolsEqual e ip then acc
        else replaceFirstById acc (jsToLower ip.id) ip := rfl

theorem poolsWithKey_replaceFirst_other (ps : List Pool) (k k' : String)
    (q : Pool) (hq : jsToLower q.id = k) (hne : k' ≠ k) :
    poolsWithKey (replaceFirstById ps k q) k' = poolsWithKey ps k' := by
  induction ps with
  | nil => rfl
  | cons p0 t ih =>
    by_cases hh : jsToLower p0.id = k
    · simp only [replaceFirstById, if_pos hh, poolsWithKey, List.filter_cons]
      rw [if_neg (by simp [hq, Ne.symm hne]), if_neg (by simp [hh, Ne.symm hne])]
    · simp only [replaceFirstById, if_neg hh, poolsWithKey, List.filter_cons]
      simp only [poolsWithKey] at ih
      rw [ih]

theorem poolsWithKey_replaceFirst_self (ps : List Pool) (k : String)
    (q : Pool) (hq : jsToLower q.id = k) :
    poolsWithKey (replaceFirstById ps k q) k =
      match poolsWithKey ps k with
      | [] => []
      | _ :: t => q :: t := by
  induction ps with
  | nil => rfl
  | cons p0 t ih =>
    by_cases hh : jsToLower p0.id = k
    · simp only [replaceFirstById, if_pos hh, poolsWithKey, List.filter_cons,
        hh, decide_eq_true_eq]
      simp [List.filter_cons, hq]
    · simp only [replaceFirstById, if_neg hh, poolsWithKey, List.filter_cons,
        decide_eq_true_eq, if_neg hh]
      exact ih

theorem mergeStep_poolsWithKey_other (E acc : List Pool) (ip : Pool)
    (k' : String) (hne : k' ≠ jsToLower ip.id) :
    poolsWithKey (mergeStep E acc ip) k' = poolsWithKey acc k' := by
  cases hfind : findPoolById E (jsToLower ip.id) with
  | none =>
    simp only [mergeStep, hfind, poolsWithKey, List.filter_append]
    have : List.filter (fun p => decide (jsToLower p.id = k')) [ip] = [] := by
      simp [Ne.symm hne]
    rw [this, List.append_nil]
  | some e =>
    simp only [mergeStep, hfind]
    split
    · rfl
    · exact poolsWithKey_replaceFirst_other _ _ _ _ rfl hne

theorem merge_foldl_poolsWithKey_other (E : List Pool) (l : List Pool)
    (k' : String) :
    ∀ acc : List Pool, (∀ q ∈ l, jsToLower q.id ≠ k') →
      poolsWithKey (l.foldl (mergeStep E) acc) k' = poolsWithKey acc k' := by
  induction l with
  | nil => intro acc _; rfl
  | cons q t ih =>
    intro acc hl
    rw [List.foldl_cons, ih _ (fun r hr => hl r (List.mem_cons_of_mem _ hr))]
    exact mergeStep_poolsWithKey_other E acc q k'
      (fun h => hl q (List.mem_cons_self _ _) h.symm)

theorem mergeStep_poolsWithKey_self (E acc : List Pool) (ip : Pool) :
    poolsWithKey (mergeStep E acc ip) (jsToLower ip.id) =
      match findPoolById E (jsToLower ip.id) with
      | none => poolsWithKey acc (jsToLower ip.id) ++ [ip]
      | some e =>
        if poolsEqual e ip then poolsWithKey acc (jsToLower ip.id)
        else
          match poolsWithKey acc (jsToLower ip.id) with
          | [] => []
          | _ :: t => ip :: t := by
  cases hfind : findPoolById E (jsToLower ip.id) with
  | none =>
    simp only [mergeStep, hfind, poolsWithKey, List.filter_append]
    congr 1
    simp
  | some e =>
    simp only [mergeStep, hfind]
    split
    · rfl
    · exact poolsWithKey_replaceFirst_self _ _ _ rfl

theorem replaceFirst_self_noop (ps : List Pool) (k : String) (q : Pool)
    (hh : (poolsWithKey ps k).head? = some q) :
    replaceFirstById ps k q = ps := by
  induction ps with
  | nil => rfl
  | cons p0 t ih =>
    by_cases h0 : jsToLower p0.id = k
    · have : p0 = q := by
        simp only [poolsWithKey, List.filter_cons, decide_eq_true_eq,
          if_pos h0, List.head?_cons] at hh
        exact Option.some_inj.mp hh
      subst this
      simp only [replaceFirstById, if_pos h0]
    · simp only [replaceFirstById, if_neg h0]
      have hh' : (poolsWithKey t k).head? = some q := by
        simpa only [poolsWithKey, List.filter_cons, decide_eq_true_eq,
          if_neg h0] using hh
      rw [ih hh']

theorem nodup_key_split {l : List Pool} {q : Pool} (hq : q ∈ l)
    (hnd : (l.map (fun p => jsToLower p.id)).Nodup) :
    ∃ l1 l2, l = l1 ++ q :: l2 ∧
      (∀ r ∈ l1, jsToLower r.id ≠ jsToLower q.id) ∧
      (∀ r ∈ l2, jsToLower r.id ≠ jsToLower q.id) := by
  obtain ⟨l1, l2, rfl⟩ := List.append_of_mem hq
  refine ⟨l1, l2, rfl, ?_, ?_⟩
  · intro r hr hkey
    rw [List.map_append, List.map_cons] at hnd
    have hdisj := (List.nodup_append.mp hnd).2.2
    exact hdisj (List.mem_map_of_mem _ hr)
      (by rw [hkey]; exact List.mem_cons_self _ _)
  · intro r hr hkey
    rw [List.map_append, List.map_cons] at hnd
    have hcons := (List.nodup_append.mp hnd).2.1
    exact (List.nodup_cons.mp hcons).1 (hkey ▸ List.mem_map_of_mem _ hr)

theorem mergeStep_self_idem (E : List Pool) (I : List Pool)
    (hnd : (I.map (fun p => jsToLower p.id)).Nodup) (q : Pool) (hq : q ∈ I) :
    mergeStep (I.foldl (mergeStep E) E) (I.foldl (mergeStep E) E) q =
      I.foldl (mergeStep E) E := by
  set M := I.foldl (mergeStep E) E with hM
  obtain ⟨l1, l2, hsplit, h1, h2⟩ := nodup_key_split hq hnd
  have hfindM : findPoolById M (jsToLower q.id) =
      (poolsWithKey M (jsToLower q.id)).getLast? :=
    findPoolById_eq_getLast M (jsToLower q.id)
  cases hfindE : findPoolById E (jsToLower q.id) with
  | none =>
    have hEk : poolsWithKey E (jsToLower q.id) = [] := by
      rw [findPoolById_eq_getLast] at hfindE
      exact List.getLast?_eq_none_iff.mp hfindE
    have hKchar : poolsWithKey M (jsToLower q.id) = [q] := by
      rw [hM, hsplit, List.foldl_append, List.foldl_cons]
      rw [merge_foldl_poolsWithKey_other E l2 _ _ h2]
      rw [mergeStep_poolsWithKey_self]
      rw [merge_foldl_poolsWithKey_other E l1 _ _ h1]
      rw [hfindE, hEk]
      rfl
    have hMq : findPoolById M (jsToLower q.id) = some q := by
      rw [hfindM, hKchar]
      rfl
    rw [mergeStep_eq, hMq]
    exact if_pos (poolsEqual_refl q)
  | some e =>
    by_cases heq : poolsEqual e q = true
    · have hKchar : poolsWithKey M (jsToLower q.id) =
          poolsWithKey E (jsToLower q.id) := by
        rw [hM, hsplit, List.foldl_append, List.foldl_cons]
        rw [merge_foldl_poolsWithKey_other E l2 _ _ h2]
        rw [mergeStep_poolsWithKey_self]
        rw [merge_foldl_poolsWithKey_other E l1 _ _ h1]
        rw [hfindE]
        exact if_pos heq
      have hMe : findPoolById M (jsToLower q.id) = some e := by
        rw [hfindM, hKchar, ← findPoolById_eq_getLast]
        exact hfindE
      rw [mergeStep_eq, hMe]
      exact if_pos heq
    · have hKchar : poolsWithKey M (jsToLower q.id) =
          (match poolsWithKey E (jsToLower q.id) with
            | [] => ([] : List Pool)
            | _ :: t => q :: t) := by
        rw [hM, hsplit, List.foldl_append, List.foldl_cons]
        rw [merge_foldl_poolsWithKey_other E l2 _ _ h2]
        rw [mergeStep_poolsWithKey_self]
        rw [merge_foldl_poolsWithKey_other E l1 _ _ h1]
        rw [hfindE]
        exact if_neg heq
      cases hEk : poolsWithKey E (jsToLower q.id) with
      | nil =>
        exfalso
        rw [findPoolById_eq_getLast, hEk] at hfindE
        exact Option.noConfusion hfindE
      | cons h0 t =>
        have hKred : poolsWithKey M (jsToLower q.id) = q :: t := by
          rw [hKchar, hEk]
        cases t with
        | nil =>
          have hMq : findPoolById M (jsToLower q.id) = some q := by
            rw [hfindM, hKred]
            rfl
          rw [mergeStep_eq, hMq]
          exact if_pos (poolsEqual_refl q)
        | cons c t' =>
          have hlast : findPoolById M (jsToLower q.id) = some e := by
            rw [hfindM, hKred, List.getLast?_cons_cons]
            rw [findPoolById_eq_getLast, hEk, List.getLast?_cons_cons] at hfindE
            exact hfindE
          have hhead : (poolsWithKey M (jsToLower q.id)).head? = some q := by
            rw [hKred]
            rfl
          rw [mergeStep_eq, hlast]
          show (if poolsEqual e q = true then M
            else replaceFirstById M (jsToLower q.id) q) = M
          rw [if_neg heq]
          exact replaceFirst_self_noop M (jsToLower q.id) q hhead

theorem foldl_eq_self (f : β → α → β) (a : β) (l : List α)
    (h : ∀ x ∈ l, f a x = a) : l.foldl f a = a := by
  induction l with
  | nil => rfl
  | cons x t ih =>
    rw [List.foldl_cons, h x (List.mem_cons_self _ _)]
    exact ih (fun y hy => h y (List.mem_cons_of_mem _ hy))

/-- Merging again with duplicate incoming ids is not a no-op: with
`S = [s(flowRate 1)]` and `I = [p(flowRate 2), s]` (both id `"a"`), the first
merge keeps `p` (the replacement) but the second replaces it by `s`. -/
def c2s : Pool := Pool.mk "a" none none [] none (some "1") none

def c2p : Pool := Pool.mk "a" none none [] none (some "2") none

def c2S : BeamrData := BeamrData.mk [c2s] []

def c2I : BeamrData := BeamrData.mk [c2p, c2s] []

/-- Counterexample to C2 as stated: applying the merge twice with the same
incoming dataset changes the result again, and the pool of `S` that is
`poolsEqual` to an incoming counterpart has nevertheless been replaced. -/
theorem merge_claim_counterexample :
    mergeBeamrData (mergeBeamrData c2S c2I) c2I ≠ mergeBeamrData c2S c2I ∧
    poolsEqual c2s c2s = true ∧
    (mergeBeamrData c2S c2I).pools = [c2p] := by
  decide

/-- C2 (amended): when the incoming pools have pairwise-distinct lowercased
ids — which a single subgraph response provides — the merge is idempotent:
re-merging the unchanged incoming dataset returns a structurally equal
result; and whenever the looked-up existing counterpart of an incoming pool
is `poolsEqual` to it, the merge step keeps the accumulated pools untouched
(no spurious replacement). -/
theorem merge_idempotent_of_nodup_ids (S I : BeamrData)
    (h : (I.pools.map (fun p => jsToLower p.id)).Nodup) :
    mergeBeamrData (mergeBeamrData S I) I = mergeBeamrData S I ∧
    (∀ (acc : List Pool) (ip e : Pool),
      findPoolById S.pools (jsToLower ip.id) = some e →
      poolsEqual e ip = true → mergeStep S.pools acc ip = acc) := by
  constructor
  · have hpools : I.pools.foldl
        (mergeStep (I.pools.foldl (mergeStep S.pools) S.pools))
        (I.pools.foldl (mergeStep S.pools) S.pools) =
        I.pools.foldl (mergeStep S.pools) S.pools :=
      foldl_eq_self _ _ _ (fun q hq => mergeStep_self_idem S.pools I.pools h q hq)
    exact congrArg (fun ps => BeamrData.mk ps []) hpools
  · intro acc ip e hfind heq
    rw [mergeStep_eq, hfind]
    exact if_pos heq

/-- Witness for C2 at a concrete dataset with distinct incoming ids. -/
theorem merge_idempotent_of_nodup_ids_witness :
    mergeBeamrData (mergeBeamrData c2S (BeamrData.mk [c2p] []))
        (BeamrData.mk [c2p] []) =
      mergeBeamrData c2S (BeamrData.mk [c2p] []) :=
  (merge_idempotent_of_nodup_ids c2S (BeamrData.mk [c2p] []) (by decide)).1

/-! ### Derived graph quantities (towards C5, C10) -/

def nodeIds (ns : List GNode) : List String := ns.map GNode.id

def edgesInto (E : List GEdge) (nid : String) : List GEdge :=
  E.filter (fun e => decide (e.target = nid))

def edgesFrom (E : List GEdge) (nid : String) : List GEdge :=
  E.filter (fun e => decide (e.source = nid))

def sourcesInto (E : List GEdge) (nid : String) : List String :=
  (edgesInto E nid).map GEdge.source

def targetsFrom (E : List GEdge) (nid : String) : List String :=
  (edgesFrom E nid).map GEdge.target

def flowInto (E : List GEdge) (nid : String) : Int :=
  ((edgesInto E nid).map GEdge.flowRate).sum

def flowFrom (E : List GEdge) (nid : String) : Int :=
  ((edgesFrom E nid).map GEdge.flowRate).sum

def incomingTotalOf (n : GNode) : Int :=
  (n.data.incomingFlows.map FlowStats.totalFlowRate).getD 0

def incomingCountOf (n : GNode) : Nat :=
  (n.data.incomingFlows.map FlowStats.userCount).getD 0

def outgoingTotalOf (n : GNode) : Int :=
  (n.data.outgoingFlows.map FlowStats.totalFlowRate).getD 0

def outgoingCountOf (n : GNode) : Nat :=
  (n.data.outgoingFlows.map FlowStats.userCount).getD 0

def accTotal (o : Option FlowAcc) : Int := (o.map FlowAcc.total).getD 0

def accParties (o : Option FlowAcc) : List String := (o.map FlowAcc.parties).getD []

/-- Every created edge relates two `account:`-prefixed node ids. -/
def EdgesWellFormed (E : List GEdge) : Prop :=
  ∀ e ∈ E, ∃ a b, e.source = makeAccountNodeId a ∧ e.target = makeAccountNodeId b

/-- The incoming-flow accumulator agrees, for every address, with the totals
and distinct senders derivable from the edge list. -/
def InStatsOk (s : BuildState) : Prop :=
  ∀ a : String,
    accTotal (mapGet s.incomingFlowsByUser a) =
      flowInto s.edges (makeAccountNodeId a) ∧
    (accParties (mapGet s.incomingFlowsByUser a)).Nodup ∧
    (∀ x, x ∈ accParties (mapGet s.incomingFlowsByUser a) ↔
      makeAccountNodeId x ∈ sourcesInto s.edges (makeAccountNodeId a))

def OutStatsOk (s : BuildState) : Prop :=
  ∀ a : String,
    accTotal (mapGet s.outgoingFlowsByUser a) =
      flowFrom s.edges (makeAccountNodeId a) ∧
    (accParties (mapGet s.outgoingFlowsByUser a)).Nodup ∧
    (∀ x, x ∈ accParties (mapGet s.outgoingFlowsByUser a) ↔
      makeAccountNodeId x ∈ targetsFrom s.edges (makeAccountNodeId a))

/-- Every node created by `ensureUserNode` is a user node whose id is the
account node id of its address. -/
def NodesOk (ns : List GNode) : Prop :=
  ∀ n ∈ ns, n.type = "user" ∧ n.id = makeAccountNodeId n.data.address

def StatsInv (s : BuildState) : Prop :=
  EdgesWellFormed s.edges ∧ InStatsOk s ∧ OutStatsOk s ∧ NodesOk s.nodes

theorem getD_total (o : Option FlowAcc) :
    (o.getD ⟨0, []⟩).total = accTotal o := by cases o <;> rfl

theorem getD_parties (o : Option FlowAcc) :
    (o.getD ⟨0, []⟩).parties = accParties o := by cases o <;> rfl

theorem edgesInto_append_one (E : List GEdge) (e : GEdge) (nid : String) :
    edgesInto (E ++ [e]) nid =
      edgesInto E nid ++ if e.target = nid then [e] else [] := by
  simp only [edgesInto, List.filter_append]
  congr 1
  by_cases h : e.target = nid
  · simp [List.filter_cons, h]
  · simp [List.filter_cons, h]

theorem edgesFrom_append_one (E : List GEdge) (e : GEdge) (nid : String) :
    edgesFrom (E ++ [e]) nid =
      edgesFrom E nid ++ if e.source = nid then [e] else [] := by
  simp only [edgesFrom, List.filter_append]
  congr 1
  by_cases h : e.source = nid
  · simp [List.filter_cons, h]
  · simp [List.filter_cons, h]

theorem flowInto_append_one (E : List GEdge) (e : GEdge) (nid : String) :
    flowInto (E ++ [e]) nid =
      flowInto E nid + if e.target = nid then e.flowRate else 0 := by
  simp only [flowInto, edgesInto_append_one]
  by_cases h : e.target = nid
  · simp [h]
  · simp [h]

theorem flowFrom_append_one (E : List GEdge) (e : GEdge) (nid : String) :
    flowFrom (E ++ [e]) nid =
      flowFrom E nid + if e.source = nid then e.flowRate else 0 := by
  simp only [flowFrom, edgesFrom_append_one]
  by_cases h : e.source = nid
  · simp [h]
  · simp [h]

theorem sourcesInto_append_one (E : List GEdge) (e : GEdge) (nid : String) :
    sourcesInto (E ++ [e]) nid =
      sourcesInto E nid ++ if e.target = nid then [e.source] else [] := by
  simp only [sourcesInto, edgesInto_append_one]
  by_cases h : e.target = nid
  · simp [h]
  · simp [h]

theorem targetsFrom_append_one (E : List GEdge) (e : GEdge) (nid : String) :
    targetsFrom (E ++ [e]) nid =
      targetsFrom E nid ++ if e.source = nid then [e.target] else [] := by
  simp only [targetsFrom, edgesFrom_append_one]
  by_cases h : e.source = nid
  · simp [h]
  · simp [h]

theorem sourcesInto_form {E : List GEdge} (hwf : EdgesWellFormed E)
    (nid : String) : ∀ t ∈ sourcesInto E nid, ∃ b, t = makeAccountNodeId b := by
  intro t ht
  obtain ⟨e, he, rfl⟩ := List.mem_map.mp ht
  obtain ⟨a, b, hs, _⟩ := hwf e (List.mem_filter.mp he).1
  exact ⟨a, hs⟩

theorem targetsFrom_form {E : List GEdge} (hwf : EdgesWellFormed E)
    (nid : String) : ∀ t ∈ targetsFrom E nid, ∃ b, t = makeAccountNodeId b := by
  intro t ht
  obtain ⟨e, he, rfl⟩ := List.mem_map.mp ht
  obtain ⟨a, b, _, hs⟩ := hwf e (List.mem_filter.mp he).1
  exact ⟨b, hs⟩

/-- A nodup list of addresses in bijection (via `makeAccountNodeId`) with the
occurrences of an id list has the length of that list deduplicated. -/
theorem party_count_eq_dedup_length (P S : List String) (hnd : P.Nodup)
    (hiff : ∀ x, x ∈ P ↔ makeAccountNodeId x ∈ S)
    (hform : ∀ t ∈ S, ∃ b, t = makeAccountNodeId b) :
    P.length = S.dedup.length := by
  rw [(List.toFinset_card_of_nodup hnd).symm, (List.card_toFinset S).symm]
  have himg : S.toFinset = P.toFinset.image makeAccountNodeId := by
    ext t
    simp only [List.mem_toFinset, Finset.mem_image]
    constructor
    · intro ht
      obtain ⟨b, rfl⟩ := hform t ht
      exact ⟨b, (hiff b).mpr ht, rfl⟩
    · rintro ⟨b, hb, rfl⟩
      exact (hiff b).mp hb
  rw [himg, Finset.card_image_of_injective _ makeAccountNodeId_inj]

theorem accTotal_some (v : FlowAcc) : accTotal (some v) = v.total := rfl

theorem accParties_some (v : FlowAcc) : accParties (some v) = v.parties := rfl

theorem recordEdge_statsInv (s : BuildState) (e : GEdge) (ma da : String)
    (fr : Int) (hsrc : e.source = makeAccountNodeId da)
    (htgt : e.target = makeAccountNodeId ma) (hfr : e.flowRate = fr)
    (hinv : StatsInv s) : StatsInv (recordEdge s e ma da fr) := by
  obtain ⟨hwf, hin, hout, hnodes⟩ := hinv
  have hedges : (recordEdge s e ma da fr).edges = s.edges ++ [e] := rfl
  have hincoming : (recordEdge s e ma da fr).incomingFlowsByUser =
      mapSet s.incomingFlowsByUser ma
        ⟨accTotal (mapGet s.incomingFlowsByUser ma) + fr,
          addParty (accParties (mapGet s.incomingFlowsByUser ma)) da⟩ := by
    show mapSet s.incomingFlowsByUser ma
        ⟨((mapGet s.incomingFlowsByUser ma).getD ⟨0, []⟩).total + fr,
          addParty ((mapGet s.incomingFlowsByUser ma).getD ⟨0, []⟩).parties da⟩ = _
    rw [getD_total, getD_parties]
  have houtgoing : (recordEdge s e ma da fr).outgoingFlowsByUser =
      mapSet s.outgoingFlowsByUser da
        ⟨accTotal (mapGet s.outgoingFlowsByUser da) + fr,
          addParty (accParties (mapGet s.outgoingFlowsByUser da)) ma⟩ := by
    show mapSet s.outgoingFlowsByUser da
        ⟨((mapGet s.outgoingFlowsByUser da).getD ⟨0, []⟩).total + fr,
          addParty ((mapGet s.outgoingFlowsByUser da).getD ⟨0, []⟩).parties ma⟩ = _
    rw [getD_total, getD_parties]
  refine ⟨?_, ?_, ?_, ?_⟩
  · rw [hedges]
    intro e' he'
    rcases List.mem_append.mp he' with he' | he'
    · exact hwf e' he'
    · rw [List.mem_singleton] at he'
      subst he'
      exact ⟨da, ma, hsrc, htgt⟩
  · intro a
    rw [hedges, hincoming]
    by_cases hA : a = ma
    · subst hA
      rw [mapGet_set_self]
      simp only [accTotal_some, accParties_some]
      refine ⟨?_, addParty_nodup (hin a).2.1 da, ?_⟩
      · rw [flowInto_append_one, if_pos htgt, (hin a).1, hfr]
      · intro x
        rw [mem_addParty, sourcesInto_append_one, if_pos htgt]
        constructor
        · rintro (hx | rfl)
          · exact List.mem_append_left _ (((hin a).2.2 x).mp hx)
          · apply List.mem_append_right
            rw [hsrc]
            exact List.mem_singleton_self _
        · intro hx
          rcases List.mem_append.mp hx with hx | hx
          · exact Or.inl (((hin a).2.2 x).mpr hx)
          · right
            rw [List.mem_singleton] at hx
            exact makeAccountNodeId_inj (hx.trans hsrc)
    · rw [mapGet_set_other _ _ _ _ hA]
      have hne : e.target ≠ makeAccountNodeId a := by
        rw [htgt]
        intro hcon
        exact hA (makeAccountNodeId_inj hcon).symm
      refine ⟨?_, (hin a).2.1, ?_⟩
      · rw [flowInto_append_one, if_neg hne, add_zero]
        exact (hin a).1
      · intro x
        rw [sourcesInto_append_one, if_neg hne, List.append_nil]
        exact (hin a).2.2 x
  · intro a
    rw [hedges, houtgoing]
    by_cases hA : a = da
    · subst hA
      rw [mapGet_set_self]
      simp only [accTotal_some, accParties_some]
      refine ⟨?_, addParty_nodup (hout a).2.1 ma, ?_⟩
      · rw [flowFrom_append_one, if_pos hsrc, (hout a).1, hfr]
      · intro x
        rw [mem_addParty, targetsFrom_append_one, if_pos hsrc]
        constructor
        · rintro (hx | rfl)
          · exact List.mem_append_left _ (((hout a).2.2 x).mp hx)
          · apply List.mem_append_right
            rw [htgt]
            exact List.mem_singleton_self _
        · intro hx
          rcases List.mem_append.mp hx with hx | hx
          · exact Or.inl (((hout a).2.2 x).mpr hx)
          · right
            rw [List.mem_singleton] at hx
            exact makeAccountNodeId_inj (hx.trans htgt)
    · rw [mapGet_set_other _ _ _ _ hA]
      have hne : e.source ≠ makeAccountNodeId a := by
        rw [hsrc]
        intro hcon
        exact hA (makeAccountNodeId_inj hcon).symm
      refine ⟨?_, (hout a).2.1, ?_⟩
      · rw [flowFrom_append_one, if_neg hne, add_zero]
        exact (hout a).1
      · intro x
        rw [targetsFrom_append_one, if_neg hne, List.append_nil]
        exact (hout a).2.2 x
  · exact hnodes

theorem processDistributor_statsInv (poolAddress memberAddress : String)
    (units memberFlowRate : Int) (canComputeFlows : Bool) (s : BuildState)
    (d : PoolDistributor) (hinv : StatsInv s) :
    StatsInv (processDistributor poolAddress memberAddress units memberFlowRate
      canComputeFlows s d) := by
  simp only [processDistributor]
  split
  · exact hinv
  · exact recordEdge_statsInv _ _ _ _ _ rfl rfl rfl hinv

theorem ensureUserNode_statsInv (ctx : BuildContext) (s : BuildState)
    (address : String) (hinv : StatsInv s) :
    StatsInv (ensureUserNode ctx s address) := by
  obtain ⟨hwf, hin, hout, hnodes⟩ := hinv
  simp only [ensureUserNode]
  split
  · exact ⟨hwf, hin, hout, hnodes⟩
  · refine ⟨hwf, hin, hout, ?_⟩
    intro n hn
    rcases List.mem_append.mp hn with hn | hn
    · exact hnodes n hn
    · rw [List.mem_singleton] at hn
      subst hn
      exact ⟨rfl, rfl⟩

theorem foldl_preserves {β γ : Type} {P : β → Prop} (f : β → γ → β)
    (hf : ∀ s x, P s → P (f s x)) :
    ∀ (l : List γ) (s : β), P s → P (l.foldl f s) := by
  intro l
  induction l with
  | nil => intro s hs; exact hs
  | cons x t ih => intro s hs; exact ih _ (hf s x hs)

theorem processMember_statsInv (ctx : BuildContext) (poolAddress : String)
    (poolDistributors : List PoolDistributor) (perUnitFlowRate : Int)
    (s : BuildState) (member : PoolMember) (hinv : StatsInv s) :
    StatsInv (processMember ctx poolAddress poolDistributors perUnitFlowRate
      s member) := by
  simp only [processMember]
  split
  · exact hinv
  · split
    · exact hinv
    · exact foldl_preserves _
        (fun s' d hs' => processDistributor_statsInv _ _ _ _ _ s' d hs') _ _
        (ensureUserNode_statsInv _ _ _ hinv)

theorem processPool_statsInv (ctx : BuildContext) (s : BuildState)
    (pool : Pool) (hinv : StatsInv s) : StatsInv (processPool ctx s pool) := by
  simp only [processPool]
  exact foldl_preserves _
    (fun s' m hs' => processMember_statsInv _ _ _ _ s' m hs') _ _
    (foldl_preserves _ (fun s' d hs' => ensureUserNode_statsInv _ s' _ hs') _ _
      hinv)

theorem initial_statsInv : StatsInv initialBuildState := by
  refine ⟨?_, ?_, ?_, ?_⟩
  · intro e he
    cases he
  · intro a
    refine ⟨rfl, List.nodup_nil, ?_⟩
    intro x
    simp [accParties, mapGet, initialBuildState, sourcesInto, edgesInto]
  · intro a
    refine ⟨rfl, List.nodup_nil, ?_⟩
    intro x
    simp [accParties, mapGet, initialBuildState, targetsFrom, edgesFrom]
  · intro n hn
    cases hn

theorem builtState_statsInv (data : BeamrData) : StatsInv (builtState data) :=
  foldl_preserves _
    (fun s pool hs => processPool_statsInv (buildContext data) s pool hs)
    data.pools initialBuildState initial_statsInv

theorem attach_id (incoming outgoing : List (String × FlowAcc))
    (profiles : String → Option FarcasterProfile) (n : GNode) :
    (attachProfileAndStats incoming outgoing profiles n).id = n.id := by
  simp only [attachProfileAndStats]
  split
  · rfl
  · rfl

theorem attach_incomingFlows (incoming outgoing : List (String × FlowAcc))
    (profiles : String → Option FarcasterProfile) (n : GNode)
    (h : n.type = "user") :
    (attachProfileAndStats incoming outgoing profiles n).data.incomingFlows =
      (mapGet incoming n.data.address).map
        (fun a => FlowStats.mk a.total a.parties.length) := by
  simp only [attachProfileAndStats]
  rw [if_neg (fun hne => hne h)]

theorem attach_outgoingFlows (incoming outgoing : List (String × FlowAcc))
    (profiles : String → Option FarcasterProfile) (n : GNode)
    (h : n.type = "user") :
    (attachProfileAndStats incoming outgoing profiles n).data.outgoingFlows =
      (mapGet outgoing n.data.address).map
        (fun a => FlowStats.mk a.total a.parties.length) := by
  simp only [attachProfileAndStats]
  rw [if_neg (fun hne => hne h)]

theorem attach_address (incoming outgoing : List (String × FlowAcc))
    (profiles : String → Option FarcasterProfile) (n : GNode) :
    (attachProfileAndStats incoming outgoing profiles n).data.address =
      n.data.address := by
  simp only [attachProfileAndStats]
  split
  · rfl
  · rfl

theorem statsTotal_map (o : Option FlowAcc) :
    (((o.map (fun a => FlowStats.mk a.total a.parties.length))).map
      FlowStats.totalFlowRate).getD 0 = accTotal o := by
  cases o <;> rfl

theorem statsCount_map (o : Option FlowAcc) :
    ((o.map (fun a => FlowStats.mk a.total a.parties.length)).map
      FlowStats.userCount).getD 0 = (accParties o).length := by
  cases o <;> rfl

/-- The claim's two-pool scenario: both pools stream from `0xA` to `0xB`. -/
def c5pool1 : Pool :=
  Pool.mk "0xP1" none (some "1")
    [PoolMember.mk "mb1" (AccountRef.mk "0xB") "1" (some true)]
    (some [PoolDistributor.mk "da" "10" (AccountRef.mk "0xA")])
    (some "10") none

def c5pool2 : Pool :=
  Pool.mk "0xP2" none (some "1")
    [PoolMember.mk "mb2" (AccountRef.mk "0xB") "1" (some true)]
    (some [PoolDistributor.mk "da2" "20" (AccountRef.mk "0xA")])
    (some "20") none

def c5data : BeamrData := BeamrData.mk [c5pool1, c5pool2] []

/-- In the graph of the modelled builder (the `memberUnits` slip of
src/src/lib/farcaster.ts:693 repaired to the in-scope `units`, see the
`GEdge` note), every node's incoming stats equal the totals and
distinct-sender counts derivable from the edge list, symmetrically for
outgoing over distinct receivers; and in the concrete two-pool `A → B`
scenario there are two edges, yet `B`'s incoming `userCount` is 1 while its
incoming `totalFlowRate` sums both edges (`10 + 20 = 30`).  This is a
property of the evident intent only: the program as written never returns
an edge-bearing graph, since the first edge construction throws. -/
theorem buildGraph_counterparty_stats :
    (∀ (data : BeamrData) (profiles : String → Option FarcasterProfile)
        (n : GNode), n ∈ (buildGraphElements data profiles).nodes →
      incomingTotalOf n =
        flowInto (buildGraphElements data profiles).edges n.id ∧
      incomingCountOf n =
        (sourcesInto (buildGraphElements data profiles).edges n.id).dedup.length ∧
      outgoingTotalOf n =
        flowFrom (buildGraphElements data profiles).edges n.id ∧
      outgoingCountOf n =
        (targetsFrom (buildGraphElements data profiles).edges n.id).dedup.length) ∧
    ((buildGraphElements c5data (fun _ => none)).edges.length = 2 ∧
      (buildGraphElements c5data (fun _ => none)).nodes.map
          (fun n => (n.id, incomingTotalOf n, incomingCountOf n)) =
        [("account:0xa", 0, 0), ("account:0xb", 30, 1)]) := by
  constructor
  · intro data profiles n hn
    obtain ⟨hwf, hin, hout, hnodes⟩ := builtState_statsInv data
    have hn' : n ∈ ((builtState data).nodes.map
        (attachProfileAndStats (builtState data).incomingFlowsByUser
          (builtState data).outgoingFlowsByUser profiles)) := hn
    obtain ⟨m, hm, rfl⟩ := List.mem_map.mp hn'
    obtain ⟨htype, hid⟩ := hnodes m hm
    have hedges : (buildGraphElements data profiles).edges =
      (builtState data).edges := rfl
    refine ⟨?_, ?_, ?_, ?_⟩
    · simp only [incomingTotalOf, hedges, attach_id, hid,
        attach_incomingFlows _ _ _ _ htype, statsTotal_map]
      exact (hin m.data.address).1
    · simp only [incomingCountOf, hedges, attach_id, hid,
        attach_incomingFlows _ _ _ _ htype, statsCount_map]
      exact party_count_eq_dedup_length _ _ (hin m.data.address).2.1
        (hin m.data.address).2.2 (sourcesInto_form hwf _)
    · simp only [outgoingTotalOf, hedges, attach_id, hid,
        attach_outgoingFlows _ _ _ _ htype, statsTotal_map]
      exact (hout m.data.address).1
    · simp only [outgoingCountOf, hedges, attach_id, hid,
        attach_outgoingFlows _ _ _ _ htype, statsCount_map]
      exact party_count_eq_dedup_length _ _ (hout m.data.address).2.1
        (hout m.data.address).2.2 (targetsFrom_form hwf _)
  · constructor
    · decide
    · decide

/-- The node for `0xB` in the built `c5data` graph. -/
def c5nodeB : GNode :=
  GNode.mk "account:0xb" "user"
    (UserNodeData.mk "0xb" "0xb...0xb" none none "user" none
      (some (FlowStats.mk 30 1)) none)

/-- Instance of the stats invariant at the concrete receiver node of the
modelled two-pool build. -/
theorem buildGraph_counterparty_stats_witness :
    incomingTotalOf c5nodeB =
      flowInto (buildGraphElements c5data (fun _ => none)).edges c5nodeB.id ∧
    incomingCountOf c5nodeB =
      (sourcesInto (buildGraphElements c5data (fun _ => none)).edges
        c5nodeB.id).dedup.length ∧
    outgoingTotalOf c5nodeB =
      flowFrom (buildGraphElements c5data (fun _ => none)).edges c5nodeB.id ∧
    outgoingCountOf c5nodeB =
      (targetsFrom (buildGraphElements c5data (fun _ => none)).edges
        c5nodeB.id).dedup.length :=
  buildGraph_counterparty_stats.1 c5data (fun _ => none) c5nodeB (by decide)

/-- C5, evaluated on the modelled intent at the failing input: the real
program throws a ReferenceError while constructing the first edge (the
undeclared identifier `memberUnits`, src/src/lib/farcaster.ts:693), so the
claim's two-pool `A → B` scenario never produces a graph.  The
distinct-counterparty counting is the spec's declared intent, and under the
evident repair of that one identifier the scenario behaves exactly as the
claim states: two distinct edges, one distinct sender into `B`, `B`'s
incoming `totalFlowRate` summing both edges (`10 + 20 = 30`), and the node
stats agreeing with the edge list. -/
theorem counterparty_stats_modelled :
    (buildGraphElements c5data (fun _ => none)).edges.length = 2 ∧
    (sourcesInto (buildGraphElements c5data (fun _ => none)).edges
      "account:0xb").dedup.length = 1 ∧
    flowInto (buildGraphElements c5data (fun _ => none)).edges
      "account:0xb" = 30 ∧
    (buildGraphElements c5data (fun _ => none)).nodes.map
        (fun n => (n.id, incomingTotalOf n, incomingCountOf n)) =
      [("account:0xa", 0, 0), ("account:0xb", 30, 1)] := by
  decide

/-! ### Edge endpoints always have nodes (C10) -/

def NodeSetOk (s : BuildState) : Prop :=
  ∀ i, i ∈ s.nodeIdSet ↔ i ∈ nodeIds s.nodes

def EdgeEndpointsOk (s : BuildState) : Prop :=
  ∀ e ∈ s.edges, e.source ∈ nodeIds s.nodes ∧ e.target ∈ nodeIds s.nodes

def GraphInv (s : BuildState) : Prop := NodeSetOk s ∧ EdgeEndpointsOk s

theorem nodeIds_append (ns ms : List GNode) :
    nodeIds (ns ++ ms) = nodeIds ns ++ nodeIds ms := List.map_append _ _ _

theorem mem_nodeIds_append_left {i : String} (ns ms : List GNode)
    (h : i ∈ nodeIds ns) : i ∈ nodeIds (ns ++ ms) := by
  rw [nodeIds_append]
  exact List.mem_append_left _ h

theorem nodes_processDistributor (poolAddress memberAddress : String)
    (units memberFlowRate : Int) (canComputeFlows : Bool) (s : BuildState)
    (d : PoolDistributor) :
    (processDistributor poolAddress memberAddress units memberFlowRate
      canComputeFlows s d).nodes = s.nodes := by
  simp only [processDistributor]
  split
  · rfl
  · rfl

theorem graphInv_processDistributor {s : BuildState}
    (poolAddress memberAddress : String) (units memberFlowRate : Int)
    (canComputeFlows : Bool) (d : PoolDistributor) (hinv : GraphInv s)
    (hsrc : makeAccountNodeId (normalizeAddress d.account.id) ∈ nodeIds s.nodes)
    (htgt : makeAccountNodeId memberAddress ∈ nodeIds s.nodes) :
    GraphInv (processDistributor poolAddress memberAddress units memberFlowRate
      canComputeFlows s d) := by
  obtain ⟨hset, hend⟩ := hinv
  simp only [processDistributor]
  split
  · exact ⟨hset, hend⟩
  · refine ⟨hset, ?_⟩
    intro e he
    rcases List.mem_append.mp he with he | he
    · exact hend e he
    · rw [List.mem_singleton] at he
      subst he
      exact ⟨hsrc, htgt⟩

theorem nodeSetOk_extend {s : BuildState} (hset : NodeSetOk s) (nd : GNode) :
    ∀ i, i ∈ s.nodeIdSet ++ [nd.id] ↔ i ∈ nodeIds (s.nodes ++ [nd]) := by
  intro i
  rw [nodeIds_append]
  simp only [List.mem_append]
  constructor
  · rintro (hi | hi)
    · exact Or.inl ((hset i).mp hi)
    · right
      simpa [nodeIds] using hi
  · rintro (hi | hi)
    · exact Or.inl ((hset i).mpr hi)
    · right
      simpa [nodeIds] using hi

theorem graphInv_ensureUserNode (ctx : BuildContext) (s : BuildState)
    (address : String) (hinv : GraphInv s) :
    GraphInv (ensureUserNode ctx s address) ∧
    (∀ i ∈ nodeIds s.nodes, i ∈ nodeIds (ensureUserNode ctx s address).nodes) ∧
    makeAccountNodeId (normalizeAddress address) ∈
      nodeIds (ensureUserNode ctx s address).nodes := by
  obtain ⟨hset, hend⟩ := hinv
  simp only [ensureUserNode]
  split
  next hmem => exact ⟨⟨hset, hend⟩, fun i hi => hi, (hset _).mp hmem⟩
  next hmem =>
    refine ⟨⟨?_, ?_⟩, ?_, ?_⟩
    · intro i
      exact nodeSetOk_extend hset
        ⟨makeAccountNodeId (normalizeAddress address), "user",
          ⟨normalizeAddress address, shortenAddress (normalizeAddress address),
            none, none, "user",
            mapGet ctx.poolInfoByDistributor (normalizeAddress address),
            none, none⟩⟩ i
    · intro e he
      obtain ⟨h1, h2⟩ := hend e he
      exact ⟨mem_nodeIds_append_left _ _ h1, mem_nodeIds_append_left _ _ h2⟩
    · intro i hi
      exact mem_nodeIds_append_left _ _ hi
    · rw [nodeIds_append]
      apply List.mem_append_right
      simp [nodeIds]

theorem nodes_foldDist (poolAddress memberAddress : String)
    (units memberFlowRate : Int) (canComputeFlows : Bool)
    (ds : List PoolDistributor) :
    ∀ s : BuildState,
      (ds.foldl (processDistributor poolAddress memberAddress units
        memberFlowRate canComputeFlows) s).nodes = s.nodes := by
  induction ds with
  | nil => intro s; rfl
  | cons d t ih =>
    intro s
    rw [List.foldl_cons, ih, nodes_processDistributor]

theorem graphInv_foldDist (poolAddress memberAddress : String)
    (units memberFlowRate : Int) (canComputeFlows : Bool)
    (ds : List PoolDistributor) :
    ∀ s : BuildState, GraphInv s →
      (∀ d ∈ ds, makeAccountNodeId (normalizeAddress d.account.id) ∈
        nodeIds s.nodes) →
      makeAccountNodeId memberAddress ∈ nodeIds s.nodes →
      GraphInv (ds.foldl (processDistributor poolAddress memberAddress units
        memberFlowRate canComputeFlows) s) := by
  induction ds with
  | nil => intro s hinv _ _; exact hinv
  | cons d t ih =>
    intro s hinv hds hma
    rw [List.foldl_cons]
    apply ih
    · exact graphInv_processDistributor _ _ _ _ _ _ hinv
        (hds d (List.mem_cons_self _ _)) hma
    · intro d' hd'
      rw [nodes_processDistributor]
      exact hds d' (List.mem_cons_of_mem _ hd')
    · rw [nodes_processDistributor]
      exact hma

theorem graphInv_processMember (ctx : BuildContext) (poolAddress : String)
    (ds : List PoolDistributor) (perUnitFlowRate : Int) (s : BuildState)
    (member : PoolMember) (hinv : GraphInv s)
    (hds : ∀ d ∈ ds, makeAccountNodeId (normalizeAddress d.account.id) ∈
      nodeIds s.nodes) :
    GraphInv (processMember ctx poolAddress ds perUnitFlowRate s member) ∧
    (∀ i ∈ nodeIds s.nodes,
      i ∈ nodeIds (processMember ctx poolAddress ds perUnitFlowRate s
        member).nodes) := by
  simp only [processMember]
  split
  · exact ⟨hinv, fun i hi => hi⟩
  · split
    · exact ⟨hinv, fun i hi => hi⟩
    · obtain ⟨hinv2, hsub2, hmem2⟩ :=
        graphInv_ensureUserNode ctx s (normalizeAddress member.account.id) hinv
      rw [normalizeAddress_idem] at hmem2
      constructor
      · apply graphInv_foldDist _ _ _ _ _ _ _ hinv2
        · intro d hd
          exact hsub2 _ (hds d hd)
        · exact hmem2
      · intro i hi
        rw [nodes_foldDist]
        exact hsub2 i hi

theorem graphInv_ensureFold (ctx : BuildContext) (l : List PoolDistributor) :
    ∀ s : BuildState, GraphInv s →
      GraphInv (l.foldl
        (fun s d => ensureUserNode ctx s (normalizeAddress d.account.id)) s) ∧
      (∀ i ∈ nodeIds s.nodes, i ∈ nodeIds (l.foldl
        (fun s d => ensureUserNode ctx s (normalizeAddress d.account.id))
          s).nodes) ∧
      (∀ d ∈ l, makeAccountNodeId (normalizeAddress d.account.id) ∈
        nodeIds (l.foldl
          (fun s d => ensureUserNode ctx s (normalizeAddress d.account.id))
            s).nodes) := by
  induction l with
  | nil =>
    intro s hinv
    exact ⟨hinv, fun i hi => hi, fun d hd => absurd hd (List.not_mem_nil d)⟩
  | cons d t ih =>
    intro s hinv
    rw [List.foldl_cons]
    obtain ⟨hinv1, hsub1, hmem1⟩ :=
      graphInv_ensureUserNode ctx s (normalizeAddress d.account.id) hinv
    obtain ⟨hinvF, hsubF, hmemF⟩ := ih _ hinv1
    refine ⟨hinvF, fun i hi => hsubF i (hsub1 i hi), ?_⟩
    intro d' hd'
    rcases List.mem_cons.mp hd' with rfl | hd'
    · rw [normalizeAddress_idem] at hmem1
      exact hsubF _ hmem1
    · exact hmemF d' hd'

theorem graphInv_foldMembers (ctx : BuildContext) (poolAddress : String)
    (ds : List PoolDistributor) (perUnitFlowRate : Int) :
    ∀ (ms : List PoolMember) (s : BuildState), GraphInv s →
      (∀ d ∈ ds, makeAccountNodeId (normalizeAddress d.account.id) ∈
        nodeIds s.nodes) →
      GraphInv (ms.foldl (processMember ctx poolAddress ds perUnitFlowRate) s) := by
  intro ms
  induction ms with
  | nil => intro s hinv _; exact hinv
  | cons m t ih =>
    intro s hinv hds
    rw [List.foldl_cons]
    obtain ⟨hinvM, hsubM⟩ :=
      graphInv_processMember ctx poolAddress ds perUnitFlowRate s m hinv hds
    exact ih _ hinvM (fun d hd => hsubM _ (hds d hd))

theorem graphInv_processPool (ctx : BuildContext) (s : BuildState)
    (pool : Pool) (hinv : GraphInv s) : GraphInv (processPool ctx s pool) := by
  simp only [processPool]
  obtain ⟨hinv1, hsub1, hmem1⟩ :=
    graphInv_ensureFold ctx (pool.poolDistributors.getD []) s hinv
  exact graphInv_foldMembers ctx (normalizeAddress pool.id)
    (pool.poolDistributors.getD [])
    ((mapGet ctx.perUnitByPool (normalizeAddress pool.id)).getD 0)
    pool.poolMembers _ hinv1 hmem1

theorem initial_graphInv : GraphInv initialBuildState := by
  constructor
  · intro i
    simp [initialBuildState, nodeIds]
  · intro e he
    cases he

theorem builtState_graphInv (data : BeamrData) : GraphInv (builtState data) :=
  foldl_preserves _
    (fun s pool hs => graphInv_processPool (buildContext data) s pool hs)
    data.pools initialBuildState initial_graphInv

/-- C10: every edge of the built graph has both endpoints among the node
ids — a user node is created for each distributor and each contributing
member before any edge between them is pushed, so there are no dangling
endpoints. -/
theorem edges_have_endpoints (data : BeamrData)
    (profiles : String → Option FarcasterProfile) (e : GEdge)
    (he : e ∈ (buildGraphElements data profiles).edges) :
    e.source ∈ nodeIds (buildGraphElements data profiles).nodes ∧
    e.target ∈ nodeIds (buildGraphElements data profiles).nodes := by
  obtain ⟨hset, hend⟩ := builtState_graphInv data
  have he' : e ∈ (builtState data).edges := he
  obtain ⟨h1, h2⟩ := hend e he'
  have hids : nodeIds (buildGraphElements data profiles).nodes =
      nodeIds (builtState data).nodes := by
    show ((builtState data).nodes.map
      (attachProfileAndStats (builtState data).incomingFlowsByUser
        (builtState data).outgoingFlowsByUser profiles)).map GNode.id =
      (builtState data).nodes.map GNode.id
    rw [List.map_map]
    exact List.map_congr_left (fun n _ => attach_id _ _ _ n)
  rw [hids]
  exact ⟨h1, h2⟩

/-- The first edge of the built `c5data` graph. -/
def c10edge : GEdge :=
  GEdge.mk "distribution:0xp1:0xa:0xb" "account:0xa" "account:0xb"
    true 1 false 10 1

/-- Witness for C10 at a concrete edge of the two-pool dataset. -/
theorem edges_have_endpoints_witness :
    c10edge.source ∈
      nodeIds (buildGraphElements c5data (fun _ => none)).nodes ∧
    c10edge.target ∈
      nodeIds (buildGraphElements c5data (fun _ => none)).nodes :=
  edges_have_endpoints c5data (fun _ => none) c10edge (by decide)

/-! ### Edge data units and curvature alternation (C8) -/

/-- Two pools with the same distributor `0xA` and member `0xB`, so the
second edge repeats the ordered source→target pair. -/
def c8pool1 : Pool :=
  Pool.mk "0xQ1" none (some "1")
    [PoolMember.mk "m1" (AccountRef.mk "0xB") "5" (some true)]
    (some [PoolDistributor.mk "da" "10" (AccountRef.mk "0xA")])
    (some "10") (some "2")

def c8pool2 : Pool :=
  Pool.mk "0xQ2" none (some "1")
    [PoolMember.mk "m2" (AccountRef.mk "0xB") "5" (some true)]
    (some [PoolDistributor.mk "da2" "15" (AccountRef.mk "0xA")])
    (some "15") (some "3")

def c8data : BeamrData := BeamrData.mk [c8pool1, c8pool2] []

/-- C8, evaluated on the modelled intent at the failing input: the source
writes the edge's `data.units` as `memberUnits`, an identifier that is
declared nowhere in the file — TypeScript rejects it, and at run time the
first edge creation would throw a ReferenceError, so the claim fails on the
code as written.  The in-scope variable holding the member's parsed unit
count is `units`, and under that evident intent (as embedded in `GEdge`)
each edge carries the member's unit count and the curvature alternates
deterministically per repeated ordered pair: first occurrence `1.0`, second
`-1.0`. -/
theorem edge_units_curvature_modelled :
    (buildGraphElements c8data (fun _ => none)).edges.map
        (fun e => (e.units, e.curvature, e.flowRate)) =
      [(5, 1, 10), (5, -1, 15)] := by
  decide

end BeamrSpec
